import Mathlib

/-!
Verification development for the `fyle_integrations_imports` module:
a shallow embedding of the import-orchestration pipeline
(`fyle_integrations_imports/modules/base.py` and the per-attribute-type
modules) together with theorems about its documented behaviour.

Conventions of the embedding:
* Python strings are Lean `String`; `str.lower()` is `pyLower` (ASCII case
  folding, which is what the stored attribute values use).
* Python `datetime` values are rationals (minutes on an absolute axis);
  only comparison and subtraction of a constant are ever performed on them.
* Django querysets are lists of rows; a filter dict becomes an explicit
  record of the restrictions present, evaluated row-wise.
* Fallible Python code (`KeyError`, `ValueError`) returns `Option`/`Except`.
* Mutation of ORM rows becomes functional update; a sequence of
  `import_log.save()` calls becomes the list of states written.
-/

/-- ASCII case folding, the embedding of Python's `str.lower()` as used on
attribute values. -/
def pyLower (s : String) : String :=
  String.mk (s.data.map Char.toLower)

/-- Truthiness of a nullable boolean column (Python `bool(x)` where
`x : bool | None`): `None` and `False` are falsy. -/
def pyTruthy (b : Option Bool) : Bool :=
  b = some true

/-- A Python float (IEEE-754 binary64 value), represented as the dyadic
rational `m / 2 ^ e`. The representation is not required to be canonical;
all operations on it are defined by integer arithmetic so that concrete
runs evaluate inside the kernel. -/
structure Dyadic where
  m : ℤ
  e : Nat
deriving DecidableEq, Repr

/-- The rational denoted by a dyadic float. -/
def Dyadic.toRat (x : Dyadic) : ℚ :=
  (x.m : ℚ) / ((2 ^ x.e : ℕ) : ℚ)

/-- A row of the `DestinationAttribute` table (the accounting-system side),
restricted to the columns the import pipeline reads: `id`, `value`, `code`,
`destination_id`, `active` (nullable boolean), `detail` (of which only the
`tax_rate` key is ever read by the modules under study — a JSON number,
hence a Python float) and `updated_at`. -/
structure DestinationAttribute where
  id : Nat
  value : String
  code : Option String
  destination_id : Option String
  active : Option Bool
  detail_tax_rate : Option Dyadic
  updated_at : ℚ
deriving DecidableEq, Repr

/-- A row of the `ExpenseAttribute` table (the platform side), restricted to
the columns read by the pipeline and the webhook processor. -/
structure ExpenseAttribute where
  workspace_id : Nat
  attribute_type : String
  source_id : String
  value : String
  active : Bool
  updated_at : ℚ
deriving DecidableEq, Repr

/-- Embedding of `Base.get_code_prepended_name`: render "{code}: {value}"
when the flag is set and the code is truthy (non-`None`, non-empty). -/
def get_code_prepended_name (prepend_code_in_name : Bool) (value : String)
    (code : Option String) : String :=
  match code with
  | some c => if prepend_code_in_name && c ≠ "" then c ++ ": " ++ value else value
  | none => value

/-- The rendered name of a destination attribute inside
`Base.remove_duplicate_attributes`: the code-prepended name when the
`prepend_code` argument is set, the raw value otherwise. -/
def renderedValue (prepend_code_to_name prepend_code : Bool)
    (a : DestinationAttribute) : String :=
  if prepend_code then get_code_prepended_name prepend_code_to_name a.value a.code
  else a.value

/-- Loop of `Base.remove_duplicate_attributes`: walk the list, keep the
first occurrence of each case-folded rendered name, overwrite the kept
attribute's `value` with the rendered name, and remember seen keys. -/
def removeDupAux (pctn pc : Bool) :
    List DestinationAttribute → List String → List DestinationAttribute
  | [], _ => []
  | a :: rest, seen =>
    let av := renderedValue pctn pc a
    if pyLower av ∈ seen then removeDupAux pctn pc rest seen
    else { a with value := av } :: removeDupAux pctn pc rest (seen ++ [pyLower av])

/-- Embedding of `Base.remove_duplicate_attributes(destination_attributes,
prepend_code)`; `pctn` is the instance flag `self.prepend_code_to_name`. -/
def remove_duplicate_attributes (pctn pc : Bool)
    (destination_attributes : List DestinationAttribute) : List DestinationAttribute :=
  removeDupAux pctn pc destination_attributes []

theorem removeDupAux_length_le (pctn pc : Bool) :
    ∀ (l : List DestinationAttribute) (seen : List String),
      (removeDupAux pctn pc l seen).length ≤ l.length := by
  intro l
  induction l with
  | nil => intro seen; simp [removeDupAux]
  | cons a rest ih =>
    intro seen
    simp only [removeDupAux]
    by_cases h : pyLower (renderedValue pctn pc a) ∈ seen
    · simp only [if_pos h, List.length_cons]
      exact Nat.le_succ_of_le (ih seen)
    · simp only [if_neg h, List.length_cons]
      exact Nat.succ_le_succ (ih _)

theorem remove_duplicate_attributes_length_le (pctn pc : Bool)
    (l : List DestinationAttribute) :
    (remove_duplicate_attributes pctn pc l).length ≤ l.length :=
  removeDupAux_length_le pctn pc l []

theorem renderedValue_of_not_pctn (pc : Bool) (a : DestinationAttribute) :
    renderedValue false pc a = a.value := by
  unfold renderedValue get_code_prepended_name
  cases pc <;> cases a.code <;> simp

theorem removeDupAux_lower_nodup (pctn pc : Bool) :
    ∀ (l : List DestinationAttribute) (seen : List String),
      ((removeDupAux pctn pc l seen).map (fun a => pyLower a.value)).Nodup ∧
      ∀ v ∈ (removeDupAux pctn pc l seen).map (fun a => pyLower a.value), v ∉ seen := by
  intro l
  induction l with
  | nil => intro seen; simp [removeDupAux]
  | cons a rest ih =>
    intro seen
    simp only [removeDupAux]
    by_cases h : pyLower (renderedValue pctn pc a) ∈ seen
    · simpa only [if_pos h] using ih seen
    · simp only [if_neg h, List.map_cons, List.nodup_cons, List.mem_map]
      refine ⟨⟨?_, (ih (seen ++ [pyLower (renderedValue pctn pc a)])).1⟩, ?_⟩
      · rintro ⟨x, hx, hxeq⟩
        have := (ih (seen ++ [pyLower (renderedValue pctn pc a)])).2
          (pyLower x.value) (List.mem_map_of_mem _ hx)
        exact this (by simp [hxeq])
      · rintro v hv
        rcases List.mem_cons.mp hv with rfl | hv'
        · simpa using h
        · rcases List.mem_map.mp hv' with ⟨x, hx, hxeq⟩
          have := (ih (seen ++ [pyLower (renderedValue pctn pc a)])).2
            (pyLower x.value) (List.mem_map_of_mem _ hx)
          rw [← hxeq]
          intro hmem
          exact this (List.mem_append_left _ hmem)

theorem removeDupAux_covers (pctn pc : Bool) :
    ∀ (l : List DestinationAttribute) (seen : List String)
      (a : DestinationAttribute), a ∈ l →
      pyLower (renderedValue pctn pc a) ∈ seen ∨
      pyLower (renderedValue pctn pc a) ∈
        (removeDupAux pctn pc l seen).map (fun x => pyLower x.value) := by
  intro l
  induction l with
  | nil => intro seen a ha; cases ha
  | cons b rest ih =>
    intro seen a ha
    simp only [removeDupAux]
    by_cases h : pyLower (renderedValue pctn pc b) ∈ seen
    · rw [if_pos h]
      rcases List.mem_cons.mp ha with rfl | ha'
      · exact Or.inl h
      · exact ih seen a ha'
    · rw [if_neg h]
      rcases List.mem_cons.mp ha with rfl | ha'
      · exact Or.inr (by simp)
      · rcases ih (seen ++ [pyLower (renderedValue pctn pc b)]) a ha' with hmem | hmem
        · rcases List.mem_append.mp hmem with hs | hb
          · exact Or.inl hs
          · refine Or.inr ?_
            simp only [List.mem_singleton] at hb
            simp [hb]
        · exact Or.inr (by simp only [List.map_cons]; exact List.mem_cons_of_mem _ hmem)

theorem removeDupAux_idem (pc : Bool) :
    ∀ (l : List DestinationAttribute) (seen : List String),
      removeDupAux false pc (removeDupAux false pc l seen) seen =
        removeDupAux false pc l seen := by
  intro l
  induction l with
  | nil => intro seen; simp [removeDupAux]
  | cons a rest ih =>
    intro seen
    simp only [removeDupAux]
    by_cases h : pyLower (renderedValue false pc a) ∈ seen
    · rw [if_pos h]
      exact ih seen
    · rw [if_neg h]
      have hval : renderedValue false pc a = a.value := renderedValue_of_not_pctn pc a
      have heta : ({ a with value := renderedValue false pc a } : DestinationAttribute) = a := by
        rw [hval]
      rw [heta]
      simp only [removeDupAux]
      rw [if_neg h]
      have heta2 : ({ a with value := renderedValue false pc a } : DestinationAttribute) = a := heta
      rw [heta2, ih]

/-- A destination attribute whose code is present, used to exhibit the
re-rendering behaviour of `remove_duplicate_attributes`. -/
def codedAttr : DestinationAttribute :=
  { id := 1, value := "V", code := some "C", destination_id := none,
    active := some true, detail_tax_rate := none, updated_at := 0 }

/-- C2 counterexample: with code-prepending enabled,
`remove_duplicate_attributes` is not idempotent — the kept attribute's value
is overwritten with "C: V" on the first pass and re-rendered to "C: C: V" on
the second, so applying the function twice differs from applying it once. -/
theorem claim_C2_counterexample :
    remove_duplicate_attributes true true
        (remove_duplicate_attributes true true [codedAttr]) ≠
      remove_duplicate_attributes true true [codedAttr] := by
  decide

/-- C2 (amended): for every attribute list, the output of
`remove_duplicate_attributes` is no longer than the input, its case-folded
values are pairwise distinct (collisions are decided on the case-folded
rendered name), every input's rendered name is represented in the output,
and the function is idempotent whenever the code-prepend flag is off. -/
theorem claim_C2_amended (pctn pc : Bool) (l : List DestinationAttribute) :
    (remove_duplicate_attributes pctn pc l).length ≤ l.length ∧
    ((remove_duplicate_attributes pctn pc l).map (fun a => pyLower a.value)).Nodup ∧
    (∀ a ∈ l, pyLower (renderedValue pctn pc a) ∈
      (remove_duplicate_attributes pctn pc l).map (fun x => pyLower x.value)) ∧
    remove_duplicate_attributes false pc (remove_duplicate_attributes false pc l) =
      remove_duplicate_attributes false pc l := by
  refine ⟨removeDupAux_length_le pctn pc l [], (removeDupAux_lower_nodup pctn pc l []).1,
    ?_, removeDupAux_idem pc l []⟩
  intro a ha
  rcases removeDupAux_covers pctn pc l [] a ha with hmem | hmem
  · cases hmem
  · exact hmem

/-- C2 witness: the amended theorem instantiated at a concrete two-element
list containing a case-insensitive duplicate. -/
theorem claim_C2_amended_witness :
    (remove_duplicate_attributes true true [codedAttr, codedAttr]).length ≤
        ([codedAttr, codedAttr] : List DestinationAttribute).length ∧
    ((remove_duplicate_attributes true true [codedAttr, codedAttr]).map
        (fun a => pyLower a.value)).Nodup ∧
    (∀ a ∈ [codedAttr, codedAttr], pyLower (renderedValue true true a) ∈
      (remove_duplicate_attributes true true [codedAttr, codedAttr]).map
        (fun x => pyLower x.value)) ∧
    remove_duplicate_attributes false true
        (remove_duplicate_attributes false true [codedAttr, codedAttr]) =
      remove_duplicate_attributes false true [codedAttr, codedAttr] :=
  claim_C2_amended true true [codedAttr, codedAttr]

/-- Number of batches the controller computes:
`math.ceil(destination_attributes_count / 200)`. -/
def numBatches (count : Nat) : Nat :=
  (count + 199) / 200

/-- The slice `queryset[offset : offset + 200]` of the (value, id)-ordered
destination attribute queryset. -/
def pageAt (l : List DestinationAttribute) (offset : Nat) : List DestinationAttribute :=
  (l.drop offset).take 200

/-- The pages of `Base.get_destination_attributes_generator` taken before the
per-page deduplication, one per offset in `range(0, count, 200)`. -/
def rawPages (l : List DestinationAttribute) : List (List DestinationAttribute) :=
  (List.range (numBatches l.length)).map fun k => pageAt l (200 * k)

/-- Embedding of `Base.get_destination_attributes_generator`: for each offset
in `range(0, count, 200)` yield the deduplicated slice together with the
`is_last_batch` flag `offset + 200 >= count`; `l` is the filtered queryset
ordered by `(value, id)`. -/
def get_destination_attributes_generator (pctn : Bool) (l : List DestinationAttribute) :
    List (List DestinationAttribute × Bool) :=
  (List.range (numBatches l.length)).map fun k =>
    (remove_duplicate_attributes pctn true (pageAt l (200 * k)),
     decide (200 * k + 200 ≥ l.length))

/-- The ordering `order_by('value', 'id')` of the destination queryset. -/
def attrKeyLe (a b : DestinationAttribute) : Prop :=
  a.value < b.value ∨ (a.value = b.value ∧ a.id ≤ b.id)

instance : DecidableRel attrKeyLe := by
  intro a b
  unfold attrKeyLe
  infer_instance

theorem join_rawPages_aux (l : List DestinationAttribute) :
    ∀ n : Nat, (((List.range n).map fun k => pageAt l (200 * k)).flatten) = l.take (200 * n) := by
  intro n
  induction n with
  | zero => simp
  | succ m ih =>
    rw [List.range_succ, List.map_append, List.flatten_append]
    simp only [List.map_cons, List.map_nil, List.flatten_cons, List.flatten_nil, List.append_nil, ih]
    rw [Nat.mul_succ, List.take_add]
    rfl

theorem join_rawPages (l : List DestinationAttribute) : (rawPages l).flatten = l := by
  unfold rawPages
  rw [join_rawPages_aux l (numBatches l.length)]
  exact List.take_of_length_le (by unfold numBatches; omega)

/-- C6 (confirmed): for every (value, id)-sorted filtered destination list,
concatenating the pages of the paginator taken before per-page deduplication
reconstructs the list exactly (nothing skipped, nothing duplicated across
page boundaries); the generator's pages are precisely the deduplications of
those slices; and a yielded `is_last_batch` flag is true exactly when the
page's upper bound `offset + 200` reaches the total count — equivalently,
exactly on the final page. -/
theorem claim_C6_pagination (pctn : Bool) (l : List DestinationAttribute)
    (_hsorted : l.Pairwise attrKeyLe) :
    (rawPages l).flatten = l ∧
    (get_destination_attributes_generator pctn l).map Prod.fst =
      (rawPages l).map (remove_duplicate_attributes pctn true) ∧
    (∀ k (h : k < (get_destination_attributes_generator pctn l).length),
      ((get_destination_attributes_generator pctn l).get ⟨k, h⟩).2 =
        decide (200 * k + 200 ≥ l.length)) ∧
    (∀ k (h : k < (get_destination_attributes_generator pctn l).length),
      (((get_destination_attributes_generator pctn l).get ⟨k, h⟩).2 = true ↔
        k = numBatches l.length - 1)) := by
  refine ⟨join_rawPages l, ?_, ?_, ?_⟩
  · simp [get_destination_attributes_generator, rawPages]
  · intro k h
    simp [get_destination_attributes_generator]
  · intro k h
    have hk : k < numBatches l.length := by
      simpa [get_destination_attributes_generator] using h
    simp only [get_destination_attributes_generator, List.get_eq_getElem,
      List.getElem_map, List.getElem_range, decide_eq_true_eq]
    unfold numBatches at hk ⊢
    omega

/-- C6 witness: the pagination theorem instantiated at a concrete sorted
two-element list, where there is a single page whose flag is true. -/
theorem claim_C6_pagination_witness :
    ([codedAttr].Pairwise attrKeyLe) ∧
    ((rawPages [codedAttr]).flatten = [codedAttr] ∧
      (get_destination_attributes_generator false [codedAttr]).map Prod.fst =
        (rawPages [codedAttr]).map (remove_duplicate_attributes false true) ∧
      (∀ k (h : k < (get_destination_attributes_generator false [codedAttr]).length),
        ((get_destination_attributes_generator false [codedAttr]).get ⟨k, h⟩).2 =
          decide (200 * k + 200 ≥ ([codedAttr] : List DestinationAttribute).length)) ∧
      (∀ k (h : k < (get_destination_attributes_generator false [codedAttr]).length),
        (((get_destination_attributes_generator false [codedAttr]).get ⟨k, h⟩).2 = true ↔
          k = numBatches ([codedAttr] : List DestinationAttribute).length - 1))) :=
  ⟨by simp, claim_C6_pagination false [codedAttr] (by simp)⟩

/-- The `attribute_type` argument of `Base.construct_attributes_filter`,
which accepts a single type string or a list of type strings. -/
inductive AttrTypeSel where
  | single (t : String)
  | multi (ts : List String)
deriving DecidableEq, Repr

/-- The filter dict built by `Base.construct_attributes_filter`, as a record
of the restrictions present: `none` in an optional field means the
corresponding key is absent from the dict. -/
structure AttributesFilter where
  workspace_id : Nat
  attribute_type_sel : AttrTypeSel
  active : Option Bool
  updated_at_gte : Option ℚ
  value_lower_in : Option (List String)
deriving DecidableEq, Repr

/-- Embedding of `Base.construct_attributes_filter`. The first three
arguments are the instance fields `workspace_id`, `sync_after` and
`platform_class_name` read by the method. -/
def construct_attributes_filter (workspace_id : Nat) (sync_after : Option ℚ)
    (platform_class_name : String) (attribute_type : AttrTypeSel)
    (is_destination_type : Bool) (paginated_destination_attribute_values : List String)
    (is_auto_sync_enabled : Bool) : AttributesFilter :=
  { workspace_id := workspace_id
    attribute_type_sel := attribute_type
    active :=
      if (sync_after = none ∧ is_destination_type = true) ∨ is_auto_sync_enabled = false
      then some true else none
    updated_at_gte :=
      if sync_after ≠ none ∧
          platform_class_name ∉ ["expense_custom_fields", "merchants"] ∧
          is_destination_type = true
      then sync_after else none
    value_lower_in :=
      if platform_class_name ∉ ["expense_custom_fields", "merchants"] ∧
          paginated_destination_attribute_values ≠ []
      then some (paginated_destination_attribute_values.map pyLower) else none }

/-- Row-wise evaluation of an `AttributesFilter` against an
`ExpenseAttribute` row (`value_lower` is the annotated `Lower('value')`). -/
def eaMatches (f : AttributesFilter) (r : ExpenseAttribute) : Bool :=
  r.workspace_id == f.workspace_id &&
  (match f.attribute_type_sel with
   | .single t => r.attribute_type == t
   | .multi ts => ts.contains r.attribute_type) &&
  (match f.active with
   | some b => r.active == b
   | none => true) &&
  (match f.updated_at_gte with
   | some t => decide (t ≤ r.updated_at)
   | none => true) &&
  (match f.value_lower_in with
   | some vs => vs.contains (pyLower r.value)
   | none => true)

/-- C4 counterexample: with a watermark present but auto-sync disabled the
destination-side filter still restricts `active = true`, and for the
merchants platform class a watermark never adds the `updated_at` bound, so
the claimed shape fails. -/
theorem claim_C4_counterexample :
    ¬ ((construct_attributes_filter 1 (some 100) "projects"
          (.single "PROJECT") true [] false).active = none ∧
       (construct_attributes_filter 1 (some 100) "merchants"
          (.single "VENDOR") true [] true).updated_at_gte = some 100) := by
  decide

/-- C4 (amended): for every destination-side filter, when no watermark
exists, or whenever auto-sync is disabled, the filter restricts to
`active = true`; when a watermark exists and auto-sync is enabled the active
restriction is dropped; and the watermark adds `updated_at >= watermark`
exactly when the platform class is not `expense_custom_fields` or
`merchants`. -/
theorem claim_C4_amended (w : Nat) (sync_after : Option ℚ) (platform : String)
    (sel : AttrTypeSel) (vals : List String) (auto : Bool) :
    ((sync_after = none ∨ auto = false) →
      (construct_attributes_filter w sync_after platform sel true vals auto).active =
        some true) ∧
    (∀ t : ℚ, sync_after = some t → auto = true →
      (construct_attributes_filter w sync_after platform sel true vals auto).active =
        none) ∧
    (∀ t : ℚ, sync_after = some t →
      platform ∉ ["expense_custom_fields", "merchants"] →
      (construct_attributes_filter w sync_after platform sel true vals auto).updated_at_gte =
        some t) ∧
    (platform ∈ ["expense_custom_fields", "merchants"] →
      (construct_attributes_filter w sync_after platform sel true vals auto).updated_at_gte =
        none) := by
  refine ⟨?_, ?_, ?_, ?_⟩
  · rintro (h | h) <;> simp [construct_attributes_filter, h]
  · intro t ht hauto
    simp [construct_attributes_filter, ht, hauto]
  · intro t ht hplat
    simp [construct_attributes_filter, ht, hplat]
  · intro hplat
    simp only [construct_attributes_filter]
    rw [if_neg]
    rintro ⟨-, hno, -⟩
    exact hno hplat

/-- C4 witness: the amended filter theorem evaluated at a concrete
watermarked auto-sync-enabled projects filter. -/
theorem claim_C4_amended_witness :
    (((some (50 : ℚ) : Option ℚ) = none ∨ (true : Bool) = false) →
      (construct_attributes_filter 7 (some 50) "projects"
        (.single "PROJECT") true ["A"] true).active = some true) ∧
    (∀ t : ℚ, (some (50 : ℚ) : Option ℚ) = some t → (true : Bool) = true →
      (construct_attributes_filter 7 (some 50) "projects"
        (.single "PROJECT") true ["A"] true).active = none) ∧
    (∀ t : ℚ, (some (50 : ℚ) : Option ℚ) = some t →
      "projects" ∉ ["expense_custom_fields", "merchants"] →
      (construct_attributes_filter 7 (some 50) "projects"
        (.single "PROJECT") true ["A"] true).updated_at_gte = some t) ∧
    ("projects" ∈ ["expense_custom_fields", "merchants"] →
      (construct_attributes_filter 7 (some 50) "projects"
        (.single "PROJECT") true ["A"] true).updated_at_gte = none) :=
  claim_C4_amended 7 (some 50) "projects" (.single "PROJECT") ["A"] true

/-- Fuel-driven floor of the base-2 logarithm; fuel `n` always suffices for
input `n`, and the definition reduces inside the kernel. -/
def ilog2Aux : Nat → Nat → Nat
  | 0, _ => 0
  | fuel + 1, n => if 2 ≤ n then ilog2Aux fuel (n / 2) + 1 else 0

/-- Floor of the base-2 logarithm of a natural number. -/
def ilog2 (n : Nat) : Nat :=
  ilog2Aux n n

/-- Whether the positive rational `n / d` is at least `2 ^ e`. -/
def geTwoPow (n d : Nat) (e : ℤ) : Bool :=
  if 0 ≤ e then decide (d * 2 ^ e.toNat ≤ n) else decide (d ≤ n * 2 ^ (-e).toNat)

/-- The binade of the positive rational `n / d`: the unique `e` with
`2 ^ e ≤ n / d < 2 ^ (e + 1)`. -/
def binadeOf (n d : Nat) : ℤ :=
  let e0 : ℤ := (ilog2 n : ℤ) - (ilog2 d : ℤ)
  if geTwoPow n d e0 then e0 else e0 - 1

/-- Round the quotient `num / den` of naturals to the nearest integer,
ties to even. -/
def roundHalfEvenDiv (num den : Nat) : Nat :=
  let q := num / den
  let r := num % den
  if 2 * r < den then q
  else if den < 2 * r then q + 1
  else if q % 2 = 0 then q else q + 1

/-- Round the positive rational `n / d` to the nearest IEEE-754 binary64
value (53-bit significand, round to nearest, ties to even; normal range,
which covers every value the import pipeline handles). -/
def roundPosRatToDouble (n d : Nat) : Dyadic :=
  let s : ℤ := 52 - binadeOf n d
  let num := n * 2 ^ s.toNat
  let den := d * 2 ^ (-s).toNat
  let m := roundHalfEvenDiv num den
  if 0 ≤ s then { m := (m : ℤ), e := s.toNat }
  else { m := (m : ℤ) * 2 ^ (-s).toNat, e := 0 }

/-- Python float division of a double by the exact integer 100
(`attribute.detail['tax_rate'] / 100`): the correctly rounded double
nearest the exact quotient. -/
def dyadicDiv100 (x : Dyadic) : Dyadic :=
  if x.m = 0 then { m := 0, e := 0 }
  else if 0 < x.m then roundPosRatToDouble x.m.toNat (2 ^ x.e * 100)
  else
    let d := roundPosRatToDouble (-x.m).toNat (2 ^ x.e * 100)
    { m := -d.m, e := d.e }

/-- Python's `round(x, 2)` on a double, in integer hundredths: correct
decimal rounding of the exact binary value, ties to even. -/
def round2Cents (x : Dyadic) : ℤ :=
  if 0 ≤ x.m then (roundHalfEvenDiv (x.m.toNat * 100) (2 ^ x.e) : ℤ)
  else -(roundHalfEvenDiv ((-x.m).toNat * 100) (2 ^ x.e) : ℤ)

/-- One payload item of `TaxGroup.construct_fyle_payload`. The percentage
of the emitted JSON is the double produced by `round(tax_rate / 100, 2)`,
which denotes exactly a two-digit decimal; it is recorded here as that
decimal rational. -/
structure TaxGroupPayloadEntry where
  name : String
  is_enabled : Bool
  percentage : ℚ
deriving DecidableEq, Repr

/-- The tax-group dict built for one attribute inside
`TaxGroup.construct_fyle_payload`; `none` models the `KeyError` raised when
the detail has no `tax_rate` key. -/
def taxGroupEntry (a : DestinationAttribute) : Option TaxGroupPayloadEntry :=
  a.detail_tax_rate.map fun rate =>
    { name := a.value
      is_enabled := true
      percentage := ((round2Cents (dyadicDiv100 rate) : ℤ) : ℚ) / 100 }

/-- Embedding of `TaxGroup.construct_fyle_payload`: build the dict for every
attribute of the page (the `tax_rate` lookup happens before the membership
test, so a missing rate fails even for skipped attributes), and keep it only
when the case-folded name is absent from the existing platform map. -/
def tax_groups_construct_fyle_payload :
    List DestinationAttribute → List (String × String) → Option (List TaxGroupPayloadEntry)
  | [], _ => some []
  | a :: rest, existing_fyle_attributes_map =>
    match taxGroupEntry a,
        tax_groups_construct_fyle_payload rest existing_fyle_attributes_map with
    | some e, some tail =>
      if (existing_fyle_attributes_map.lookup (pyLower a.value)).isSome then some tail
      else some (e :: tail)
    | _, _ => none

theorem round2Cents_eight_point_five :
    round2Cents (dyadicDiv100 { m := 17, e := 1 }) = 9 := by
  decide

/-- C3 (confirmed): for a tax-group destination attribute whose detail
carries `tax_rate = 8.5` (the double `17 / 2`), the payload builder emits
exactly one entry `{name, is_enabled = true, percentage = 0.09}` when the
case-folded name is absent from the existing platform map — the percentage
is `8.5 / 100` rounded (upward here, since the double nearest `0.085`
exceeds it) to two decimals, not truncated — and emits no entry at all when
the name is present (create-only, no disable path). -/
theorem claim_C3_tax_group (a : DestinationAttribute) (m : List (String × String))
    (hrate : a.detail_tax_rate = some { m := 17, e := 1 }) :
    Dyadic.toRat { m := 17, e := 1 } = 17 / 2 ∧
    (m.lookup (pyLower a.value) = none →
      tax_groups_construct_fyle_payload [a] m =
        some [{ name := a.value, is_enabled := true, percentage := 9 / 100 }]) ∧
    (∀ sid, m.lookup (pyLower a.value) = some sid →
      tax_groups_construct_fyle_payload [a] m = some []) := by
  refine ⟨?_, ?_, ?_⟩
  · unfold Dyadic.toRat
    norm_num
  · intro hnone
    simp [tax_groups_construct_fyle_payload, taxGroupEntry, hrate, hnone,
      round2Cents_eight_point_five]
  · intro sid hsid
    simp [tax_groups_construct_fyle_payload, taxGroupEntry, hrate, hsid]

/-- C3 witness: the tax-group theorem applied to a concrete attribute named
"GST" with an empty and a matching platform map. -/
theorem claim_C3_tax_group_witness :
    (Dyadic.toRat { m := 17, e := 1 } = 17 / 2 ∧
      (([] : List (String × String)).lookup (pyLower "GST") = none →
        tax_groups_construct_fyle_payload
            [{ id := 3, value := "GST", code := none, destination_id := some "t1",
               active := some true, detail_tax_rate := some { m := 17, e := 1 },
               updated_at := 0 }] [] =
          some [{ name := "GST", is_enabled := true, percentage := 9 / 100 }]) ∧
      (∀ sid, ([] : List (String × String)).lookup (pyLower "GST") = some sid →
        tax_groups_construct_fyle_payload
            [{ id := 3, value := "GST", code := none, destination_id := some "t1",
               active := some true, detail_tax_rate := some { m := 17, e := 1 },
               updated_at := 0 }] [] = some [])) ∧
    ([] : List (String × String)).lookup (pyLower "GST") = none :=
  ⟨claim_C3_tax_group
      { id := 3, value := "GST", code := none, destination_id := some "t1",
        active := some true, detail_tax_rate := some { m := 17, e := 1 },
        updated_at := 0 } [] rfl,
    rfl⟩

/-- Model of building a Python `set` from a list: first-occurrence
deduplication on the exact string. Membership coincides with the set's;
iteration order (unspecified for Python sets) is fixed as first-occurrence
order, and no theorem below depends on it. -/
def distinctAux : List String → List String → List String
  | [], _ => []
  | v :: rest, seen =>
    if seen.contains v then distinctAux rest seen
    else v :: distinctAux rest (seen ++ [v])

/-- The distinct values of a list, in first-occurrence order. -/
def distinctList (l : List String) : List String :=
  distinctAux l []

/-- The case-insensitive deduplication loop shared by
`Merchant.construct_fyle_payload` and
`ExpenseCustomField.construct_fyle_expense_custom_field_payload`: keep the
first-seen casing per case-folded value. -/
def ciDedupAux : List String → List String → List String
  | [], _ => []
  | v :: rest, seen =>
    if seen.contains (pyLower v) then ciDedupAux rest seen
    else v :: ciDedupAux rest (seen ++ [pyLower v])

/-- Case-insensitive deduplication preserving first-seen casing. -/
def ciDedup (l : List String) : List String :=
  ciDedupAux l []

/-- Embedding of `Merchant.construct_fyle_payload`: the union of destination
values and existing platform values, minus the values inactive on either
side, deduplicated case-insensitively preserving first-seen casing. -/
def merchant_construct_fyle_payload
    (paginated_destination_attributes : List DestinationAttribute)
    (existing_fyle_attributes_map : List ExpenseAttribute) : List String :=
  let destination_attribute_value_list := paginated_destination_attributes.map (·.value)
  let destination_attribute_inactive_list :=
    (paginated_destination_attributes.filter (fun a => !pyTruthy a.active)).map (·.value)
  let existing_fyle_values := existing_fyle_attributes_map.map (·.value)
  let existing_fyle_values_inactive :=
    (existing_fyle_attributes_map.filter (fun a => !a.active)).map (·.value)
  let combined_values :=
    (distinctList (destination_attribute_value_list ++ existing_fyle_values)).filter
      (fun v => !destination_attribute_inactive_list.contains v &&
        !existing_fyle_values_inactive.contains v)
  ciDedup combined_values

/-- Embedding of the `options` computation of
`ExpenseCustomField.construct_fyle_expense_custom_field_payload` (the same
union-minus-inactive-then-dedup pipeline, over the module's destination
attributes and the existing platform attributes of the source field). -/
def expense_custom_fields_options
    (destination_attributes : List DestinationAttribute)
    (existing_fyle_attributes : List ExpenseAttribute) : List String :=
  let destination_attribute_value_list := destination_attributes.map (·.value)
  let destination_attribute_inactive_list :=
    (destination_attributes.filter (fun a => !pyTruthy a.active)).map (·.value)
  let existing_fyle_values := existing_fyle_attributes.map (·.value)
  let existing_fyle_values_inactive :=
    (existing_fyle_attributes.filter (fun a => !a.active)).map (·.value)
  let combined_values :=
    (distinctList (destination_attribute_value_list ++ existing_fyle_values)).filter
      (fun v => !destination_attribute_inactive_list.contains v &&
        !existing_fyle_values_inactive.contains v)
  ciDedup combined_values

theorem distinctAux_mem_iff :
    ∀ (l seen : List String) (v : String),
      v ∈ distinctAux l seen ↔ v ∈ l ∧ v ∉ seen := by
  intro l
  induction l with
  | nil => intro seen v; simp [distinctAux]
  | cons b rest ih =>
    intro seen v
    simp only [distinctAux]
    by_cases hb : seen.contains b
    · rw [if_pos hb, ih]
      constructor
      · rintro ⟨hv, hns⟩
        exact ⟨List.mem_cons_of_mem _ hv, hns⟩
      · rintro ⟨hv, hns⟩
        rcases List.mem_cons.mp hv with rfl | hv'
        · exact absurd (by simpa using hb) hns
        · exact ⟨hv', hns⟩
    · rw [if_neg hb]
      constructor
      · intro hv
        rcases List.mem_cons.mp hv with rfl | hv'
        · exact ⟨List.mem_cons_self _ _, by simpa using hb⟩
        · rcases (ih _ v).mp hv' with ⟨h1, h2⟩
          refine ⟨List.mem_cons_of_mem _ h1, fun hs => h2 (List.mem_append_left _ hs)⟩
      · rintro ⟨hv, hns⟩
        rcases List.mem_cons.mp hv with rfl | hv'
        · exact List.mem_cons_self _ _
        · by_cases hvb : v = b
          · subst hvb; exact List.mem_cons_self _ _
          · refine List.mem_cons_of_mem _ ((ih _ v).mpr ⟨hv', ?_⟩)
            intro hs
            rcases List.mem_append.mp hs with hs | hs
            · exact hns hs
            · simp only [List.mem_singleton] at hs
              exact hvb hs

theorem ciDedupAux_subset :
    ∀ (l seen : List String) (v : String), v ∈ ciDedupAux l seen → v ∈ l := by
  intro l
  induction l with
  | nil => intro seen v h; simp [ciDedupAux] at h
  | cons b rest ih =>
    intro seen v h
    simp only [ciDedupAux] at h
    by_cases hb : seen.contains (pyLower b)
    · rw [if_pos hb] at h
      exact List.mem_cons_of_mem _ (ih _ v h)
    · rw [if_neg hb] at h
      rcases List.mem_cons.mp h with rfl | h'
      · exact List.mem_cons_self _ _
      · exact List.mem_cons_of_mem _ (ih _ v h')

theorem ciDedupAux_lower_nodup :
    ∀ (l seen : List String),
      ((ciDedupAux l seen).map pyLower).Nodup ∧
      ∀ v ∈ (ciDedupAux l seen).map pyLower, v ∉ seen := by
  intro l
  induction l with
  | nil => intro seen; simp [ciDedupAux]
  | cons b rest ih =>
    intro seen
    simp only [ciDedupAux]
    by_cases hb : seen.contains (pyLower b)
    · simpa only [if_pos hb] using ih seen
    · simp only [if_neg hb, List.map_cons, List.nodup_cons, List.mem_map]
      refine ⟨⟨?_, (ih (seen ++ [pyLower b])).1⟩, ?_⟩
      · rintro ⟨x, hx, hxeq⟩
        have := (ih (seen ++ [pyLower b])).2 (pyLower x) (List.mem_map_of_mem _ hx)
        exact this (by simp [hxeq])
      · rintro v hv
        rcases List.mem_cons.mp hv with rfl | hv'
        · simpa using hb
        · rcases List.mem_map.mp hv' with ⟨x, hx, hxeq⟩
          have := (ih (seen ++ [pyLower b])).2 (pyLower x) (List.mem_map_of_mem _ hx)
          rw [← hxeq]
          intro hmem
          exact this (List.mem_append_left _ hmem)

theorem ciDedupAux_covers :
    ∀ (l seen : List String) (v : String), v ∈ l →
      pyLower v ∈ seen ∨ ∃ w ∈ ciDedupAux l seen, pyLower w = pyLower v := by
  intro l
  induction l with
  | nil => intro seen v hv; cases hv
  | cons b rest ih =>
    intro seen v hv
    simp only [ciDedupAux]
    by_cases hb : seen.contains (pyLower b)
    · rw [if_pos hb]
      rcases List.mem_cons.mp hv with rfl | hv'
      · exact Or.inl (by simpa using hb)
      · exact ih seen v hv'
    · rw [if_neg hb]
      rcases List.mem_cons.mp hv with rfl | hv'
      · exact Or.inr ⟨v, List.mem_cons_self _ _, rfl⟩
      · rcases ih (seen ++ [pyLower b]) v hv' with hmem | ⟨w, hw, hweq⟩
        · rcases List.mem_append.mp hmem with hs | hs
          · exact Or.inl hs
          · simp only [List.mem_singleton] at hs
            exact Or.inr ⟨b, List.mem_cons_self _ _, hs.symm⟩
        · exact Or.inr ⟨w, List.mem_cons_of_mem _ hw, hweq⟩

/-- C5 counterexample: the merchant value "A" is present and active on the
destination side only (it appears nowhere on the platform side), yet it is
absent from the built payload, because a second destination record with the
same value is inactive and the inactive-subtraction removes the value
entirely. -/
theorem claim_C5_counterexample :
    (∃ a ∈ [({ id := 1, value := "A", code := none, destination_id := none,
                active := some true, detail_tax_rate := none, updated_at := 0 } :
              DestinationAttribute),
            { id := 2, value := "A", code := none, destination_id := none,
              active := some false, detail_tax_rate := none, updated_at := 0 }],
        a.value = "A" ∧ pyTruthy a.active = true) ∧
    merchant_construct_fyle_payload
        [{ id := 1, value := "A", code := none, destination_id := none,
           active := some true, detail_tax_rate := none, updated_at := 0 },
         { id := 2, value := "A", code := none, destination_id := none,
           active := some false, detail_tax_rate := none, updated_at := 0 }]
        [] = [] := by
  decide

/-- C5 (amended): the merchant payload and the custom-field options are the
same value list; its case-folded entries are pairwise distinct; every
emitted value occurs on one of the two sides and has no inactive occurrence
(of the exact string) on either side; and conversely every value occurring
on some side all of whose occurrences are active is represented in the
output up to case folding. In particular a value present and active on
exactly one side appears unless an inactive record of the same exact string
exists, and a value with an inactive exact occurrence on either side never
appears. -/
theorem claim_C5_amended (dest : List DestinationAttribute)
    (existing : List ExpenseAttribute) :
    expense_custom_fields_options dest existing =
      merchant_construct_fyle_payload dest existing ∧
    ((merchant_construct_fyle_payload dest existing).map pyLower).Nodup ∧
    (∀ v ∈ merchant_construct_fyle_payload dest existing,
      (v ∈ dest.map (fun a => a.value) ∨ v ∈ existing.map (fun r => r.value)) ∧
      (∀ a ∈ dest, a.value = v → pyTruthy a.active = true) ∧
      (∀ r ∈ existing, r.value = v → r.active = true)) ∧
    (∀ v, (v ∈ dest.map (fun a => a.value) ∨ v ∈ existing.map (fun r => r.value)) →
      (∀ a ∈ dest, a.value = v → pyTruthy a.active = true) →
      (∀ r ∈ existing, r.value = v → r.active = true) →
      ∃ w ∈ merchant_construct_fyle_payload dest existing, pyLower w = pyLower v) := by
  refine ⟨rfl, ?_, ?_, ?_⟩
  · exact (ciDedupAux_lower_nodup _ []).1
  · intro v hv
    have hvc := ciDedupAux_subset _ [] v hv
    rcases List.mem_filter.mp hvc with ⟨hmem, hpred⟩
    have hmem' := ((distinctAux_mem_iff _ [] v).mp hmem).1
    rcases Bool.and_eq_true .. |>.mp hpred with ⟨hd, he⟩
    have hd' : v ∉ (dest.filter (fun a => !pyTruthy a.active)).map
        (fun a => a.value) := by
      simpa using hd
    have he' : v ∉ (existing.filter (fun r => !r.active)).map
        (fun r => r.value) := by
      simpa using he
    refine ⟨by simpa using List.mem_append.mp hmem', ?_, ?_⟩
    · intro a ha hav
      by_contra hact
      exact hd' (by
        refine List.mem_map.mpr ⟨a, List.mem_filter.mpr ⟨ha, ?_⟩, hav⟩
        simp [hact])
    · intro r hr hrv
      by_contra hact
      exact he' (by
        refine List.mem_map.mpr ⟨r, List.mem_filter.mpr ⟨hr, ?_⟩, hrv⟩
        simp [hact])
  · intro v hside hd he
    have hmem : v ∈ dest.map (fun a => a.value) ++ existing.map (fun r => r.value) := by
      rcases hside with h | h
      · exact List.mem_append_left _ h
      · exact List.mem_append_right _ h
    have hdist : v ∈ distinctList
        (dest.map (fun a => a.value) ++ existing.map (fun r => r.value)) :=
      (distinctAux_mem_iff _ [] v).mpr ⟨hmem, by simp⟩
    have hpred : (!((dest.filter (fun a => !pyTruthy a.active)).map
          (fun a => a.value)).contains v &&
        !((existing.filter (fun r => !r.active)).map
          (fun r => r.value)).contains v) = true := by
      have h1 : v ∉ (dest.filter (fun a => !pyTruthy a.active)).map
          (fun a => a.value) := by
        intro hvd
        rcases List.mem_map.mp hvd with ⟨a, haf, hav⟩
        rcases List.mem_filter.mp haf with ⟨ha, hact⟩
        have := hd a ha hav
        simp [this] at hact
      have h2 : v ∉ (existing.filter (fun r => !r.active)).map
          (fun r => r.value) := by
        intro hve
        rcases List.mem_map.mp hve with ⟨r, hrf, hrv⟩
        rcases List.mem_filter.mp hrf with ⟨hr, hact⟩
        have := he r hr hrv
        simp [this] at hact
      simp only [Bool.and_eq_true]
      exact ⟨by simpa using h1, by simpa using h2⟩
    have hcomb : v ∈ (distinctList
        (dest.map (fun a => a.value) ++ existing.map (fun r => r.value))).filter
          (fun v => !((dest.filter (fun a => !pyTruthy a.active)).map
              (fun a => a.value)).contains v &&
            !((existing.filter (fun r => !r.active)).map
              (fun r => r.value)).contains v) :=
      List.mem_filter.mpr ⟨hdist, hpred⟩
    rcases ciDedupAux_covers _ [] v hcomb with hfalse | hex
    · cases hfalse
    · exact hex

/-- A concrete destination side for the merchant payload witness. -/
def merchDemoDest : List DestinationAttribute :=
  [{ id := 5, value := "Uber", code := none, destination_id := none,
     active := some true, detail_tax_rate := none, updated_at := 0 }]

/-- A concrete platform side for the merchant payload witness. -/
def merchDemoExisting : List ExpenseAttribute :=
  [{ workspace_id := 1, attribute_type := "MERCHANT", source_id := "s1",
     value := "Lyft", active := true, updated_at := 0 }]

/-- C5 witness: the amended union-minus-inactive theorem instantiated at a
concrete one-element destination side and one-element platform side. -/
theorem claim_C5_amended_witness :
    expense_custom_fields_options merchDemoDest merchDemoExisting =
      merchant_construct_fyle_payload merchDemoDest merchDemoExisting ∧
    ((merchant_construct_fyle_payload merchDemoDest merchDemoExisting).map pyLower).Nodup ∧
    (∀ v ∈ merchant_construct_fyle_payload merchDemoDest merchDemoExisting,
      (v ∈ merchDemoDest.map (fun a => a.value) ∨
        v ∈ merchDemoExisting.map (fun r => r.value)) ∧
      (∀ a ∈ merchDemoDest, a.value = v → pyTruthy a.active = true) ∧
      (∀ r ∈ merchDemoExisting, r.value = v → r.active = true)) ∧
    (∀ v, (v ∈ merchDemoDest.map (fun a => a.value) ∨
        v ∈ merchDemoExisting.map (fun r => r.value)) →
      (∀ a ∈ merchDemoDest, a.value = v → pyTruthy a.active = true) →
      (∀ r ∈ merchDemoExisting, r.value = v → r.active = true) →
      ∃ w ∈ merchant_construct_fyle_payload merchDemoDest merchDemoExisting,
        pyLower w = pyLower v) :=
  claim_C5_amended merchDemoDest merchDemoExisting

/-- A row of the `import_logs` table restricted to the fields the pipeline
writes; `error_log` entries are opaque strings. -/
structure ImportLog where
  status : String
  error_log : List String
  total_batches_count : Nat
  processed_batches_count : Nat
  last_successful_run_at : Option ℚ
deriving DecidableEq, Repr

/-- The defaults applied by `ImportLog.objects.get_or_create` when the row
for (workspace, attribute type) does not exist yet. -/
def importLogDefaults : ImportLog :=
  { status := "IN_PROGRESS", error_log := [], total_batches_count := 0,
    processed_batches_count := 0, last_successful_run_at := none }

/-- Embedding of `Base.update_import_log_post_import`: advance the processed
counter; on the last batch also set the success timestamp, mark COMPLETE and
clear the error log. -/
def update_import_log_post_import (is_last_batch : Bool) (now : ℚ)
    (import_log : ImportLog) : ImportLog :=
  if is_last_batch then
    { import_log with
        last_successful_run_at := some now
        processed_batches_count := import_log.processed_batches_count + 1
        status := "COMPLETE"
        error_log := [] }
  else
    { import_log with
        processed_batches_count := import_log.processed_batches_count + 1 }

/-- The per-batch `is_last_batch` flags of one run over `count` filtered
destination attributes, as produced by the generator. -/
def batchFlags (count : Nat) : List Bool :=
  (List.range (numBatches count)).map fun k => decide (200 * k + 200 ≥ count)

/-- The sequence of `import_log.save()` states produced by posting the
batches in order: each batch applies `update_import_log_post_import` to the
previous state. -/
def batchWrites (now : ℚ) : List Bool → ImportLog → List ImportLog
  | [], _ => []
  | f :: rest, import_log =>
    let next := update_import_log_post_import f now import_log
    next :: batchWrites now rest next

/-- The `import_log.save()` states written by
`Base.construct_payload_and_import_to_fyle` for a filtered destination set
of size `count`: with no attributes, a single write marking the log COMPLETE
with zeroed counters; otherwise the batch-count initialization write
followed by one write per posted batch. -/
def construct_payload_and_import_to_fyle_writes (now : ℚ) (count : Nat)
    (import_log : ImportLog) : List ImportLog :=
  if count = 0 then
    [{ import_log with
        status := "COMPLETE"
        last_successful_run_at := some now
        error_log := []
        total_batches_count := 0
        processed_batches_count := 0 }]
  else
    let init := { import_log with total_batches_count := numBatches count }
    init :: batchWrites now (batchFlags count) init

/-- Whether the watermark is fresher than `now` minus thirty minutes
(`self.sync_after and self.sync_after > offset_aware_time_difference`). -/
def watermarkFresh (sync_after : Option ℚ) (now : ℚ) : Bool :=
  match sync_after with
  | some t => decide (now - 30 < t)
  | none => false

/-- The abort condition of `Base.check_import_log_and_start_import`: the
whole disjunction is guarded by the app name not being the Sage file-export
caller. -/
def importGuardAborts (app_name : String) (status : String) (is_created : Bool)
    (sync_after : Option ℚ) (now : ℚ) : Bool :=
  !(["Sage File Export"].contains app_name) &&
    ((status == "IN_PROGRESS" && !is_created) || watermarkFresh sync_after now)

/-- Embedding of `Base.check_import_log_and_start_import`, returning the
list of `import_log.save()` states the call writes. `pre` is the existing
row for (workspace, attribute type), if any (`get_or_create` supplies
`importLogDefaults` and `is_created = true` otherwise); `count` is the size
of the filtered destination set the body will see. An aborted call writes
nothing. -/
def check_import_log_and_start_import (app_name : String) (sync_after : Option ℚ)
    (now : ℚ) (pre : Option ImportLog) (count : Nat) : List ImportLog :=
  let import_log := pre.getD importLogDefaults
  let is_created := pre.isNone
  if importGuardAborts app_name import_log.status is_created sync_after now then []
  else
    let started :=
      { import_log with
          status := "IN_PROGRESS"
          processed_batches_count := 0
          total_batches_count := 0 }
    started :: construct_payload_and_import_to_fyle_writes now count started

theorem batchWrites_length (now : ℚ) :
    ∀ (flags : List Bool) (log : ImportLog),
      (batchWrites now flags log).length = flags.length := by
  intro flags
  induction flags with
  | nil => intro log; rfl
  | cons f rest ih => intro log; simp [batchWrites, ih]

theorem batchWrites_spec (now : ℚ) :
    ∀ (flags : List Bool) (log : ImportLog),
      log.status = "IN_PROGRESS" →
      log.processed_batches_count + flags.length = log.total_batches_count →
      (∀ i (h : i < flags.length), flags.get ⟨i, h⟩ = true ↔ i = flags.length - 1) →
      (∀ e ∈ batchWrites now flags log,
        (e.status = "IN_PROGRESS" →
          e.processed_batches_count ≤ e.total_batches_count) ∧
        (e.status = "COMPLETE" →
          e.error_log = [] ∧ e.last_successful_run_at = some now ∧
            e.processed_batches_count = e.total_batches_count)) ∧
      (∀ e ∈ (batchWrites now flags log).dropLast, e.status = "IN_PROGRESS") ∧
      (∀ e, (batchWrites now flags log).getLast? = some e →
        e.status = "COMPLETE") := by
  intro flags
  induction flags with
  | nil =>
    intro log _ _ _
    refine ⟨?_, ?_, ?_⟩
    · intro e he; cases he
    · intro e he; cases he
    · intro e he; cases he
  | cons f rest ih =>
    intro log hst hle hchar
    have hhead : f = true ↔ 0 = rest.length := by
      have := hchar 0 (by simp)
      simpa using this
    by_cases hf : f = true
    · have hrest : rest = [] := List.length_eq_zero.mp (hhead.mp hf).symm
      subst hrest
      subst hf
      refine ⟨?_, ?_, ?_⟩
      · intro e he
        simp only [batchWrites, List.mem_singleton] at he
        subst he
        constructor
        · intro habs
          simp [update_import_log_post_import] at habs
        · intro _
          simp only [List.length_cons, List.length_nil] at hle
          refine ⟨by simp [update_import_log_post_import],
            by simp [update_import_log_post_import], ?_⟩
          simp [update_import_log_post_import]
          omega
      · intro e he
        simp [batchWrites] at he
      · intro e he
        simp only [batchWrites, List.getLast?_singleton, Option.some_inj] at he
        subst he
        simp [update_import_log_post_import]
    · have hf' : f = false := by
        cases f
        · rfl
        · exact absurd rfl hf
      subst hf'
      have hrest : rest ≠ [] := by
        intro habs
        exact hf (hhead.mpr (by simp [habs]))
      clear hhead
      have hnextst :
          (update_import_log_post_import false now log).status = "IN_PROGRESS" := by
        simpa [update_import_log_post_import] using hst
      have hnextle :
          (update_import_log_post_import false now log).processed_batches_count +
            rest.length =
          (update_import_log_post_import false now log).total_batches_count := by
        simp only [update_import_log_post_import, if_neg (by simp : ¬ false = true)]
        simp only [List.length_cons] at hle
        omega
      have hnextchar : ∀ i (h : i < rest.length),
          rest.get ⟨i, h⟩ = true ↔ i = rest.length - 1 := by
        intro i h
        have := hchar (i + 1) (by simpa using Nat.succ_lt_succ h)
        simp only [List.get_cons_succ] at this
        rw [this]
        have hrl : 0 < rest.length := List.length_pos.mpr hrest
        simp only [List.length_cons]
        omega
      obtain ⟨iha, ihb, ihc⟩ :=
        ih (update_import_log_post_import false now log) hnextst hnextle hnextchar
      have htail_ne :
          batchWrites now rest (update_import_log_post_import false now log) ≠ [] := by
        intro habs
        have := batchWrites_length now rest (update_import_log_post_import false now log)
        rw [habs] at this
        exact hrest (List.length_eq_zero.mp this.symm)
      refine ⟨?_, ?_, ?_⟩
      · intro e he
        simp only [batchWrites, List.mem_cons] at he
        rcases he with rfl | he
        · constructor
          · intro _
            simp only [update_import_log_post_import, if_neg (by simp : ¬ false = true)]
            simp only [List.length_cons] at hle
            omega
          · intro habs
            have hcon : log.status = "COMPLETE" := by
              simpa [update_import_log_post_import] using habs
            rw [hst] at hcon
            exact absurd hcon (by decide)
        · exact iha e he
      · intro e he
        rw [show batchWrites now (false :: rest) log =
            update_import_log_post_import false now log ::
              batchWrites now rest (update_import_log_post_import false now log) from rfl,
          List.dropLast_cons_of_ne_nil htail_ne] at he
        rcases List.mem_cons.mp he with rfl | he
        · exact hnextst
        · exact ihb e he
      · intro e he
        obtain ⟨x, xs, hxs⟩ := List.exists_cons_of_ne_nil htail_ne
        rw [show batchWrites now (false :: rest) log =
            update_import_log_post_import false now log ::
              batchWrites now rest (update_import_log_post_import false now log) from rfl,
          hxs, List.getLast?_cons_cons, ← hxs] at he
        exact ihc e he

theorem batchFlags_char (count : Nat) :
    ∀ i (h : i < (batchFlags count).length),
      (batchFlags count).get ⟨i, h⟩ = true ↔ i = (batchFlags count).length - 1 := by
  intro i h
  have hi : i < numBatches count := by simpa [batchFlags] using h
  simp only [batchFlags, List.get_eq_getElem, List.getElem_map, List.getElem_range,
    decide_eq_true_eq, List.length_map, List.length_range]
  unfold numBatches at hi ⊢
  omega

theorem batchFlags_length (count : Nat) :
    (batchFlags count).length = numBatches count := by
  simp [batchFlags]

theorem construct_writes_spec (now : ℚ) (count : Nat) (log : ImportLog)
    (hst : log.status = "IN_PROGRESS")
    (hproc : log.processed_batches_count = 0) :
    (∀ e ∈ construct_payload_and_import_to_fyle_writes now count log,
      (e.status = "IN_PROGRESS" →
        e.processed_batches_count ≤ e.total_batches_count) ∧
      (e.status = "COMPLETE" →
        e.error_log = [] ∧ e.last_successful_run_at = some now ∧
          e.processed_batches_count = e.total_batches_count)) ∧
    (∀ e ∈ (construct_payload_and_import_to_fyle_writes now count log).dropLast,
      e.status = "IN_PROGRESS") ∧
    (∀ e, (construct_payload_and_import_to_fyle_writes now count log).getLast? = some e →
      e.status = "COMPLETE") := by
  by_cases hc : count = 0
  · subst hc
    have hw : construct_payload_and_import_to_fyle_writes now 0 log =
        [{ log with
            status := "COMPLETE"
            last_successful_run_at := some now
            error_log := []
            total_batches_count := 0
            processed_batches_count := 0 }] := by
      simp [construct_payload_and_import_to_fyle_writes]
    refine ⟨?_, ?_, ?_⟩
    · intro e he
      rw [hw, List.mem_singleton] at he
      subst he
      exact ⟨fun habs =>
        absurd (show ("COMPLETE" : String) = "IN_PROGRESS" from habs) (by decide),
        fun _ => ⟨rfl, rfl, rfl⟩⟩
    · intro e he
      rw [hw] at he
      simp at he
    · intro e he
      rw [hw, List.getLast?_singleton, Option.some_inj] at he
      subst he
      rfl
  · have hn : 0 < numBatches count := by
      unfold numBatches
      omega
    have hinitst : ({ log with total_batches_count := numBatches count } :
        ImportLog).status = "IN_PROGRESS" := hst
    have hinitle : ({ log with total_batches_count := numBatches count } :
        ImportLog).processed_batches_count + (batchFlags count).length =
        ({ log with total_batches_count := numBatches count } :
          ImportLog).total_batches_count := by
      show log.processed_batches_count + (batchFlags count).length = numBatches count
      rw [hproc, batchFlags_length]
      omega
    obtain ⟨sa, sb, sc⟩ := batchWrites_spec now (batchFlags count)
      { log with total_batches_count := numBatches count } hinitst hinitle
      (batchFlags_char count)
    have hbw_ne : batchWrites now (batchFlags count)
        { log with total_batches_count := numBatches count } ≠ [] := by
      intro habs
      have hlen := batchWrites_length now (batchFlags count)
        { log with total_batches_count := numBatches count }
      rw [habs, batchFlags_length] at hlen
      simp only [List.length_nil] at hlen
      omega
    have hunf : construct_payload_and_import_to_fyle_writes now count log =
        { log with total_batches_count := numBatches count } ::
          batchWrites now (batchFlags count)
            { log with total_batches_count := numBatches count } := by
      simp [construct_payload_and_import_to_fyle_writes, hc]
    refine ⟨?_, ?_, ?_⟩
    · intro e he
      rw [hunf] at he
      rcases List.mem_cons.mp he with rfl | he
      · refine ⟨fun _ => ?_, fun habs => ?_⟩
        · show log.processed_batches_count ≤ numBatches count
          omega
        · have hcon : log.status = "COMPLETE" := habs
          rw [hst] at hcon
          exact absurd hcon (by decide)
      · exact sa e he
    · intro e he
      rw [hunf, List.dropLast_cons_of_ne_nil hbw_ne] at he
      rcases List.mem_cons.mp he with rfl | he
      · exact hst
      · exact sb e he
    · intro e he
      obtain ⟨x, xs, hxs⟩ := List.exists_cons_of_ne_nil hbw_ne
      rw [hunf, hxs, List.getLast?_cons_cons, ← hxs] at he
      exact sc e he

theorem construct_writes_ne_nil (now : ℚ) (count : Nat) (log : ImportLog) :
    construct_payload_and_import_to_fyle_writes now count log ≠ [] := by
  unfold construct_payload_and_import_to_fyle_writes
  by_cases hc : count = 0
  · simp [hc]
  · simp [hc]

/-- C9 counterexample: a run over an empty filtered destination set (here:
a fresh ImportLog, zero destination attributes) writes a COMPLETE status
with `total_batches_count = 0` — no batch was ever posted and
`is_last_batch` was never true, so the COMPLETE transition is not tied to
the successful post of a last batch as the claim states; the whole run is
exactly the reset write plus this immediate completion write. -/
theorem claim_C9_counterexample :
    ((check_import_log_and_start_import "QBO" none 100 none 0).getLast?).map
        (fun e => (e.status, e.total_batches_count, e.processed_batches_count)) =
      some ("COMPLETE", 0, 0) ∧
    (check_import_log_and_start_import "QBO" none 100 none 0).length = 2 := by
  constructor
  · rfl
  · rfl

/-- C9 (amended): after every ImportLog write of a run — the counter reset,
the batch-count initialization and each per-batch advance —
`processed_batches_count` never exceeds `total_batches_count` while the
status is IN_PROGRESS; every write with status COMPLETE has an empty
error_log, `last_successful_run_at` set to the run's clock, and
`processed_batches_count = total_batches_count`; all writes before the
final one are IN_PROGRESS, and the final write is the only COMPLETE one —
produced by the last-batch advance when the destination set is nonempty,
or by the immediate zero-batch completion write when it is empty. -/
theorem claim_C9_amended (app : String) (sync_after : Option ℚ) (now : ℚ)
    (pre : Option ImportLog) (count : Nat) :
    (∀ e ∈ check_import_log_and_start_import app sync_after now pre count,
      (e.status = "IN_PROGRESS" →
        e.processed_batches_count ≤ e.total_batches_count) ∧
      (e.status = "COMPLETE" →
        e.error_log = [] ∧ e.last_successful_run_at = some now ∧
          e.processed_batches_count = e.total_batches_count)) ∧
    (∀ e ∈ (check_import_log_and_start_import app sync_after now pre count).dropLast,
      e.status = "IN_PROGRESS") ∧
    (∀ e, (check_import_log_and_start_import app sync_after now pre count).getLast? =
        some e → e.status = "COMPLETE") := by
  by_cases hg : importGuardAborts app (pre.getD importLogDefaults).status
      pre.isNone sync_after now = true
  · have ht : check_import_log_and_start_import app sync_after now pre count = [] := by
      simp [check_import_log_and_start_import, hg]
    rw [ht]
    refine ⟨?_, ?_, ?_⟩
    · intro e he; cases he
    · intro e he; cases he
    · intro e he; cases he
  · have hg' : importGuardAborts app (pre.getD importLogDefaults).status
        pre.isNone sync_after now = false := by
      cases h : importGuardAborts app (pre.getD importLogDefaults).status
          pre.isNone sync_after now
      · rfl
      · exact absurd h hg
    have ht : check_import_log_and_start_import app sync_after now pre count =
        { pre.getD importLogDefaults with
            status := "IN_PROGRESS"
            processed_batches_count := 0
            total_batches_count := 0 } ::
          construct_payload_and_import_to_fyle_writes now count
            { pre.getD importLogDefaults with
                status := "IN_PROGRESS"
                processed_batches_count := 0
                total_batches_count := 0 } := by
      simp [check_import_log_and_start_import, hg']
    obtain ⟨sa, sb, sc⟩ := construct_writes_spec now count
      { pre.getD importLogDefaults with
          status := "IN_PROGRESS"
          processed_batches_count := 0
          total_batches_count := 0 } rfl rfl
    have hne := construct_writes_ne_nil now count
      { pre.getD importLogDefaults with
          status := "IN_PROGRESS"
          processed_batches_count := 0
          total_batches_count := 0 }
    refine ⟨?_, ?_, ?_⟩
    · intro e he
      rw [ht] at he
      rcases List.mem_cons.mp he with rfl | he
      · exact ⟨fun _ => Nat.le_refl 0, fun habs =>
          absurd (show ("IN_PROGRESS" : String) = "COMPLETE" from habs) (by decide)⟩
      · exact sa e he
    · intro e he
      rw [ht, List.dropLast_cons_of_ne_nil hne] at he
      rcases List.mem_cons.mp he with rfl | he
      · rfl
      · exact sb e he
    · intro e he
      obtain ⟨x, xs, hxs⟩ := List.exists_cons_of_ne_nil hne
      rw [ht, hxs, List.getLast?_cons_cons, ← hxs] at he
      exact sc e he

/-- C9 witness: the amended theorem applied to a concrete run over 401
destination attributes (three batches); the final write is COMPLETE. -/
theorem claim_C9_amended_witness :
    ((check_import_log_and_start_import "QBO" none 100 none 401).getLast?).map
      (fun e => e.status) = some "COMPLETE" := by
  have h := (claim_C9_amended "QBO" none 100 none 401).2.2
  cases hl : (check_import_log_and_start_import "QBO" none 100 none 401).getLast? with
  | none => exact absurd hl (by decide)
  | some e => simp [h e hl]

/-- C1 counterexample: with the Sage file-export caller, a watermark only
five minutes old (fresher than now minus thirty minutes) does not abort the
run — the call still resets the counters, writes IN_PROGRESS and executes
the import body, so the designated caller bypasses the freshness window as
well, not only the already-in-progress half of the guard. -/
theorem claim_C1_counterexample :
    watermarkFresh (some 95) 100 = true ∧
    ((check_import_log_and_start_import "Sage File Export" (some 95) 100
        (some { status := "COMPLETE", error_log := ["earlier failure"],
                total_batches_count := 3, processed_batches_count := 3,
                last_successful_run_at := some 95 }) 1).head?).map
        (fun e => (e.status, e.total_batches_count, e.processed_batches_count)) =
      some ("IN_PROGRESS", 0, 0) := by
  constructor
  · have h : (100 : ℚ) - 30 < 95 := by norm_num
    simp [watermarkFresh, h]
  · rfl

/-- C1 (amended): a call writes nothing at all exactly when the guard
aborts; otherwise its first write resets both counters and persists
IN_PROGRESS before the import body runs. For every caller other than the
Sage file-export app, the guard aborts precisely when the log is already
IN_PROGRESS without having just been created, or the watermark is fresher
than now minus thirty minutes; the Sage file-export caller bypasses the
entire guard — both halves — and always proceeds. -/
theorem claim_C1_amended (app : String) (sync_after : Option ℚ) (now : ℚ)
    (pre : Option ImportLog) (count : Nat) :
    (importGuardAborts app (pre.getD importLogDefaults).status
        pre.isNone sync_after now = true →
      check_import_log_and_start_import app sync_after now pre count = []) ∧
    (importGuardAborts app (pre.getD importLogDefaults).status
        pre.isNone sync_after now = false →
      (check_import_log_and_start_import app sync_after now pre count).head? =
        some { pre.getD importLogDefaults with
                status := "IN_PROGRESS"
                processed_batches_count := 0
                total_batches_count := 0 }) ∧
    (app = "Sage File Export" →
      importGuardAborts app (pre.getD importLogDefaults).status
        pre.isNone sync_after now = false) ∧
    (app ≠ "Sage File Export" →
      (importGuardAborts app (pre.getD importLogDefaults).status
          pre.isNone sync_after now = true ↔
        (((pre.getD importLogDefaults).status = "IN_PROGRESS" ∧ pre ≠ none) ∨
          watermarkFresh sync_after now = true))) := by
  refine ⟨?_, ?_, ?_, ?_⟩
  · intro hg
    simp [check_import_log_and_start_import, hg]
  · intro hg
    simp [check_import_log_and_start_import, hg]
  · intro happ
    subst happ
    simp [importGuardAborts]
  · intro happ
    have hcont : (["Sage File Export"].contains app) = false := by
      simpa using happ
    constructor
    · intro hg
      rw [importGuardAborts, hcont] at hg
      simp only [Bool.not_false, Bool.true_and, Bool.or_eq_true,
        Bool.and_eq_true, beq_iff_eq, Bool.not_eq_true'] at hg
      rcases hg with ⟨h1, h2⟩ | h
      · refine Or.inl ⟨h1, ?_⟩
        intro habs
        rw [habs] at h2
        simp at h2
      · exact Or.inr h
    · intro hg
      rw [importGuardAborts, hcont]
      simp only [Bool.not_false, Bool.true_and, Bool.or_eq_true,
        Bool.and_eq_true, beq_iff_eq, Bool.not_eq_true']
      rcases hg with ⟨h1, h2⟩ | h
      · refine Or.inl ⟨h1, ?_⟩
        cases hp : pre
        · exact absurd hp h2
        · simp [hp]
      · exact Or.inr h

/-- C1 witness: the amended guard theorem at a concrete non-Sage caller
with no pre-existing log and no watermark; the guard does not abort and the
first write is the counter reset. -/
theorem claim_C1_amended_witness :
    importGuardAborts "QBO" ((none : Option ImportLog).getD importLogDefaults).status
        (none : Option ImportLog).isNone none 100 = false ∧
    (check_import_log_and_start_import "QBO" none 100 none 3).head? =
      some { (none : Option ImportLog).getD importLogDefaults with
              status := "IN_PROGRESS"
              processed_batches_count := 0
              total_batches_count := 0 } :=
  ⟨by decide, (claim_C1_amended "QBO" none 100 none 3).2.1 (by decide)⟩

/-- The `data` payload of a webhook body, restricted to the keys the
processor reads. -/
structure WebhookData where
  id : Option String
  name : Option String
  sub_category : Option String
  sub_project : Option String
  user_email : Option String
  bank_name : Option String
  card_number : Option String
  is_enabled : Option Bool
  has_accepted_invite : Option Bool
  field_name : Option String
  field_type : Option String
  options : List String
deriving DecidableEq, Repr

/-- A webhook body `{action, resource, data}`. -/
structure WebhookBody where
  action : String
  resource : String
  data : WebhookData
deriving DecidableEq, Repr

/-- Python's `str(x)` on an optional string id: `None` prints as "None". -/
def pyStr (o : Option String) : String :=
  o.getD "None"

/-- The keys of `ATTRIBUTE_FIELD_MAPPING` in `webhook_attributes.py`. -/
def attributeFieldMappingKeys : List String :=
  ["CATEGORY", "PROJECT", "COST_CENTER", "EMPLOYEE", "CORPORATE_CARD",
   "TAX_GROUP", "EXPENSE_FIELD", "DEPENDENT_FIELD"]

/-- The members of the external `WebhookAttributeActionEnum`
(fyle_accounting_library): constructing it from any other string raises
`ValueError`. -/
def webhookActionMembers : List String :=
  ["CREATED", "UPDATED", "DELETED"]

/-- Python `field_name.upper().replace(' ', '_')`. -/
def underscoreUpper (s : String) : String :=
  String.mk (s.data.map fun c => if c = ' ' then '_' else c.toUpper)

/-- Python `card_number[-6:].replace('-', '')`: the last six characters with
dashes removed. -/
def lastSixNoDash (s : String) : String :=
  String.mk ((s.data.drop (s.data.length - 6)).filter fun c => c ≠ '-')

/-- The `value` computed per resource type by
`WebhookAttributeProcessor._get_attribute_data`. -/
def webhookValue (t : String) (d : WebhookData) : Option String :=
  if t = "CATEGORY" then
    let name := d.name.getD ""
    let sub := d.sub_category.getD ""
    some (if sub ≠ "" ∧ name ≠ sub then name ++ " / " ++ sub else name)
  else if t = "PROJECT" then
    let name := d.name.getD ""
    let sub := d.sub_project.getD ""
    some (if sub ≠ "" then name ++ " / " ++ sub else name)
  else if t = "EMPLOYEE" then d.user_email
  else if t = "CORPORATE_CARD" then
    some ((d.bank_name.getD "") ++ " - " ++ lastSixNoDash (d.card_number.getD ""))
  else d.name

/-- The `active` flag computed by `_get_attribute_data`: CORPORATE_CARD has
`active_default = True` and no active field; every other mapped type reads
`data.get('is_enabled', True)`. -/
def webhookActive (t : String) (d : WebhookData) : Bool :=
  if t = "CORPORATE_CARD" then true else d.is_enabled.getD true

/-- Modelled from the spec: `ExpenseAttribute.create_or_update_expense_attribute`
is an external `fyle_accounting_mappings` method; per the spec's webhook
section, CREATED/UPDATED "upserts by (workspace, type, source id)". A
missing value is stored as the empty string (no claim exercises that
corner). -/
def create_or_update_expense_attribute (w : Nat) (t : String) (sid : String)
    (value : Option String) (active : Bool)
    (state : List ExpenseAttribute) : List ExpenseAttribute :=
  if state.any (fun r => r.workspace_id == w && r.attribute_type == t &&
      r.source_id == sid) then
    state.map fun r =>
      if r.workspace_id == w && r.attribute_type == t && r.source_id == sid then
        { r with value := value.getD "", active := active }
      else r
  else
    state ++ [{ workspace_id := w
                attribute_type := t
                source_id := sid
                value := value.getD ""
                active := active
                updated_at := 0 }]

/-- Embedding of `WebhookAttributeProcessor._process_expense_field`: ignore
non-SELECT fields; otherwise create attribute rows for options not stored
yet and deactivate stored option values no longer present. -/
def process_expense_field (w : Nat) (d : WebhookData)
    (state : List ExpenseAttribute) : List ExpenseAttribute :=
  let ftype := d.field_type.getD ""
  if ftype ≠ "SELECT" then state
  else
    let attribute_type := underscoreUpper (d.field_name.getD "")
    let existing_values :=
      (state.filter fun r => r.workspace_id == w &&
        r.attribute_type == attribute_type).map (fun r => r.value)
    let new_options :=
      (distinctList d.options).filter fun v => !existing_values.contains v
    let created := new_options.map fun v =>
      ({ workspace_id := w
         attribute_type := attribute_type
         source_id := pyStr d.id
         value := v
         active := webhookActive "EXPENSE_FIELD" d
         updated_at := 0 } : ExpenseAttribute)
    (state ++ created).map fun r =>
      if r.workspace_id == w && r.attribute_type == attribute_type &&
          r.active && !d.options.contains r.value then
        { r with active := false }
      else r

/-- Embedding of `WebhookAttributeProcessor._process_expense_attribute`:
skip employees who have not accepted the invite, special-case expense
fields, disable matching active rows by source id on DELETED, and upsert on
CREATED/UPDATED. -/
def process_expense_attribute (w : Nat) (d : WebhookData) (t : String)
    (action : String) (state : List ExpenseAttribute) : List ExpenseAttribute :=
  if t = "EMPLOYEE" ∧ d.has_accepted_invite = some false then state
  else if t = "EXPENSE_FIELD" then process_expense_field w d state
  else if action = "DELETED" then
    state.map fun r =>
      if r.workspace_id == w && r.attribute_type == t && r.active &&
          r.source_id == pyStr d.id then
        { r with active := false }
      else r
  else
    create_or_update_expense_attribute w t (pyStr d.id)
      (webhookValue t d) (webhookActive t d) state

/-- Embedding of `WebhookAttributeProcessor._is_import_in_progress`: the
cached flag wins when present; otherwise the ImportLog table (rows given as
(workspace, attribute type, status) triples) is probed for an IN_PROGRESS
row. -/
def is_import_in_progress (w : Nat) (t : String) (cached : Option Bool)
    (import_logs : List (Nat × String × String)) : Bool :=
  match cached with
  | some b => b
  | none =>
    import_logs.any fun x => x.1 == w && x.2.1 == t && x.2.2 == "IN_PROGRESS"

/-- Embedding of `WebhookAttributeProcessor.process_webhook`. `enumMembers`
is the membership of the external `FyleAttributeTypeEnum`
(fyle_accounting_library), passed as a parameter; it contains at least the
eight mapped resource names. Converting an action or resource string that
is not a member raises `ValueError` (`Except.error`); a member resource
absent from the field mapping is logged and ignored; non-DELETED events are
suppressed while an import is in progress. -/
def process_webhook (w : Nat) (enumMembers : List String) (cached : Option Bool)
    (import_logs : List (Nat × String × String)) (state : List ExpenseAttribute)
    (body : WebhookBody) : Except String (List ExpenseAttribute) :=
  if !(webhookActionMembers.contains body.action) then .error "ValueError"
  else if !(enumMembers.contains body.resource) then .error "ValueError"
  else if !(attributeFieldMappingKeys.contains body.resource) then .ok state
  else if is_import_in_progress w body.resource cached import_logs &&
      !(body.action == "DELETED") then .ok state
  else .ok (process_expense_attribute w body.data body.resource body.action state)

/-- An empty webhook data payload used by concrete webhook scenarios. -/
def emptyWebhookData : WebhookData :=
  { id := none, name := none, sub_category := none, sub_project := none,
    user_email := none, bank_name := none, card_number := none,
    is_enabled := none, has_accepted_invite := none, field_name := none,
    field_type := none, options := [] }

/-- C8 counterexample: a webhook body whose resource names a string that is
no member of the resource-type enum makes `process_webhook` raise
`ValueError` at the enum conversion — before the logged
unsupported-resource check — rather than rejecting the event without
raising. -/
theorem claim_C8_counterexample :
    process_webhook 1 attributeFieldMappingKeys none [] []
        { action := "CREATED", resource := "NOT_A_RESOURCE",
          data := emptyWebhookData } =
      Except.error "ValueError" := by
  rfl

/-- C8 (amended): a resource that is a member of the resource-type enum but
absent from the attribute field mapping is rejected without raising — the
call logs, mutates nothing and returns the store unchanged; a resource
string that is not an enum member instead raises `ValueError` at the enum
conversion. -/
theorem claim_C8_amended (w : Nat) (enumMembers : List String)
    (cached : Option Bool) (import_logs : List (Nat × String × String))
    (state : List ExpenseAttribute) (body : WebhookBody) :
    (body.action ∈ webhookActionMembers →
      body.resource ∈ enumMembers →
      body.resource ∉ attributeFieldMappingKeys →
      process_webhook w enumMembers cached import_logs state body = .ok state) ∧
    (body.action ∈ webhookActionMembers →
      body.resource ∉ enumMembers →
      process_webhook w enumMembers cached import_logs state body =
        .error "ValueError") := by
  constructor
  · intro hact hres hmap
    simp [process_webhook, hact, hres, hmap]
  · intro hact hres
    simp [process_webhook, hact, hres]

/-- C8 witness: the amended theorem at a concrete MERCHANT event, with the
enum membership instantiated to the eight mapped names plus MERCHANT. -/
theorem claim_C8_amended_witness :
    ({ action := "CREATED", resource := "MERCHANT",
        data := emptyWebhookData } : WebhookBody).action ∈ webhookActionMembers ∧
    ({ action := "CREATED", resource := "MERCHANT",
        data := emptyWebhookData } : WebhookBody).resource ∈
      attributeFieldMappingKeys ++ ["MERCHANT"] ∧
    ({ action := "CREATED", resource := "MERCHANT",
        data := emptyWebhookData } : WebhookBody).resource ∉
      attributeFieldMappingKeys ∧
    process_webhook 1 (attributeFieldMappingKeys ++ ["MERCHANT"]) none [] []
        { action := "CREATED", resource := "MERCHANT", data := emptyWebhookData } =
      .ok [] :=
  ⟨by decide, by decide, by decide,
    (claim_C8_amended 1 (attributeFieldMappingKeys ++ ["MERCHANT"]) none [] []
        { action := "CREATED", resource := "MERCHANT",
          data := emptyWebhookData }).1
      (by decide) (by decide) (by decide)⟩

/-- The employee webhook data used in the C7 scenario: the employee has not
accepted the invite. -/
def empDeleteData : WebhookData :=
  { emptyWebhookData with id := some "e9", has_accepted_invite := some false }

/-- An active employee attribute row matching the webhook's source id. -/
def empRow : ExpenseAttribute :=
  { workspace_id := 1, attribute_type := "EMPLOYEE", source_id := "e9",
    value := "jane@acme.com", active := true, updated_at := 0 }

/-- C7 counterexample: while an EMPLOYEE import is flagged in progress, a
DELETED event for an employee who has not accepted the invite leaves the
matching active ExpenseAttribute untouched — the invite check returns
before the disable — so a DELETED event does not always mark the matching
attribute inactive. -/
theorem claim_C7_counterexample :
    is_import_in_progress 1 "EMPLOYEE" (some true) [] = true ∧
    empRow.active = true ∧ empRow.source_id = pyStr empDeleteData.id ∧
    process_webhook 1 attributeFieldMappingKeys (some true) [] [empRow]
        { action := "DELETED", resource := "EMPLOYEE", data := empDeleteData } =
      .ok [empRow] := by
  refine ⟨rfl, rfl, rfl, ?_⟩
  rfl

/-- C7 (amended): while an import for the (workspace, resource type) is
flagged in progress, a CREATED or UPDATED event is skipped and leaves the
attribute store unchanged; a DELETED event still reaches processing and,
unless the resource is the option-diffing EXPENSE_FIELD special case or an
EMPLOYEE who has not accepted the invite, marks exactly the matching active
ExpenseAttribute rows (by source id) inactive. -/
theorem claim_C7_amended (w : Nat) (enumMembers : List String)
    (cached : Option Bool) (import_logs : List (Nat × String × String))
    (state : List ExpenseAttribute) (d : WebhookData) (t : String)
    (hin : is_import_in_progress w t cached import_logs = true)
    (ht : t ∈ attributeFieldMappingKeys) (htenum : t ∈ enumMembers) :
    (∀ action, action ∈ (["CREATED", "UPDATED"] : List String) →
      process_webhook w enumMembers cached import_logs state
        { action := action, resource := t, data := d } = .ok state) ∧
    (t ≠ "EXPENSE_FIELD" → ¬(t = "EMPLOYEE" ∧ d.has_accepted_invite = some false) →
      process_webhook w enumMembers cached import_logs state
        { action := "DELETED", resource := t, data := d } =
      .ok (state.map fun r =>
        if r.workspace_id == w && r.attribute_type == t && r.active &&
            r.source_id == pyStr d.id then
          { r with active := false }
        else r)) := by
  constructor
  · intro action haction
    have hact : action ∈ webhookActionMembers := by
      rcases List.mem_cons.mp haction with rfl | haction
      · simp [webhookActionMembers]
      · rcases List.mem_cons.mp haction with rfl | haction
        · simp [webhookActionMembers]
        · cases haction
    have hne : ¬ action = "DELETED" := by
      rcases List.mem_cons.mp haction with rfl | haction
      · decide
      · rcases List.mem_cons.mp haction with rfl | haction
        · decide
        · cases haction
    simp [process_webhook, hact, htenum, ht, hin, hne]
  · intro hfield hemp
    have hact : ("DELETED" : String) ∈ webhookActionMembers := by
      simp [webhookActionMembers]
    simp only [process_webhook]
    rw [if_neg (by simpa using hact), if_neg (by simpa using htenum),
      if_neg (by simpa using ht)]
    rw [if_neg (by simp)]
    simp [process_expense_attribute, hemp, hfield]

/-- An active project attribute row for the C7 witness. -/
def projRow : ExpenseAttribute :=
  { workspace_id := 1, attribute_type := "PROJECT", source_id := "p1",
    value := "Apollo", active := true, updated_at := 0 }

/-- The project webhook data for the C7 witness. -/
def projDeleteData : WebhookData :=
  { emptyWebhookData with id := some "p1" }

/-- C7 witness: the amended theorem applied to a concrete PROJECT type with
an in-progress import — the CREATED event is skipped while the DELETED
event disables the matching row. -/
theorem claim_C7_amended_witness :
    is_import_in_progress 1 "PROJECT" (some true) [] = true ∧
    "PROJECT" ∈ attributeFieldMappingKeys ∧
    process_webhook 1 attributeFieldMappingKeys (some true) [] [projRow]
        { action := "CREATED", resource := "PROJECT", data := projDeleteData } =
      .ok [projRow] ∧
    process_webhook 1 attributeFieldMappingKeys (some true) [] [projRow]
        { action := "DELETED", resource := "PROJECT", data := projDeleteData } =
      .ok ([projRow].map fun r =>
        if r.workspace_id == 1 && r.attribute_type == "PROJECT" && r.active &&
            r.source_id == pyStr projDeleteData.id then
          { r with active := false }
        else r) :=
  ⟨rfl, by decide,
    (claim_C7_amended 1 attributeFieldMappingKeys (some true) [] [projRow]
        projDeleteData "PROJECT" rfl (by decide) (by decide)).1 "CREATED" (by decide),
    (claim_C7_amended 1 attributeFieldMappingKeys (some true) [] [projRow]
        projDeleteData "PROJECT" rfl (by decide) (by decide)).2 (by decide)
      (by decide)⟩

/-- A row as seen by the Q-object filters of the Category module. Both
destination and platform rows are matched through the fields they share;
`display_name` and the detail account type exist only on the destination
side, and the source-side filter instance never consults them. -/
structure CatRow where
  workspace_id : Nat
  attribute_type : String
  value : String
  active : Option Bool
  updated_at : ℚ
  display_name : String
  detail_account_type : Option String
deriving DecidableEq, Repr

/-- View an `ExpenseAttribute` row through the Category filter's fields. -/
def eaToCatRow (r : ExpenseAttribute) : CatRow :=
  { workspace_id := r.workspace_id, attribute_type := r.attribute_type,
    value := r.value, active := some r.active, updated_at := r.updated_at,
    display_name := "", detail_account_type := none }

/-- Embedding of `Category.construct_attributes_filter` as a predicate
(Q objects combined with `&` and `|` become conjunction and disjunction).
The module's platform class is `categories`, so the
`expense_custom_fields` exclusion in the watermark clause always passes.
Note the candidate-value clause restricts on the exact `value`, not on the
case-folded value. -/
def category_construct_attributes_filter (w : Nat) (sync_after : Option ℚ)
    (destination_sync_methods charts_of_accounts : List String)
    (attribute_type : String) (is_destination_type : Bool)
    (paginated_destination_attribute_values : List String) : CatRow → Bool :=
  let base0 : CatRow → Bool := fun r =>
    r.attribute_type == attribute_type && r.workspace_id == w
  let base1 : CatRow → Bool :=
    if sync_after.isSome && is_destination_type then
      fun r => base0 r && decide ((sync_after.getD 0) ≤ r.updated_at)
    else base0
  let base2 : CatRow → Bool :=
    if paginated_destination_attribute_values ≠ [] then
      fun r => base1 r && paginated_destination_attribute_values.contains r.value
    else base1
  let filters : CatRow → Bool :=
    if sync_after.isNone && is_destination_type then
      fun r => base2 r && pyTruthy r.active
    else base2
  if attribute_type == "CATEGORY" then filters
  else
    let account_filters :=
      if destination_sync_methods.contains "accounts" then
        let af : CatRow → Bool := fun r => filters r && r.display_name == "Account"
        if charts_of_accounts ≠ [] then
          fun r => af r && (match r.detail_account_type with
            | some ty => charts_of_accounts.contains ty
            | none => false)
        else af
      else filters
    let filters1 :=
      if destination_sync_methods.contains "items" then
        let item_filter : CatRow → Bool := fun r =>
          filters r && r.display_name == "Item"
        if destination_sync_methods.contains "accounts" then
          fun r => account_filters r || item_filter r
        else item_filter
      else filters
    let filters2 :=
      if destination_sync_methods.contains "expense_categories" then
        let ec : CatRow → Bool := fun r =>
          filters1 r && r.display_name == "Expense Category"
        if destination_sync_methods.contains "accounts" then
          fun r => account_filters r || ec r
        else ec
      else filters1
    if !(destination_sync_methods.contains "items") then account_filters
    else filters2

/-- Embedding of `Category.get_existing_fyle_attributes`: probe the
platform rows of the source field (always CATEGORY) with the source-side
filter instance — which carries no active restriction — and build the map
from case-folded value to source id. In Python the dict keeps the last
entry per duplicate key; the theorems below depend only on key
membership. -/
def category_get_existing_fyle_attributes (w : Nat) (sync_after : Option ℚ)
    (destination_sync_methods charts_of_accounts : List String)
    (rows : List ExpenseAttribute)
    (paginated_destination_attribute_values : List String) :
    List (String × String) :=
  let f := category_construct_attributes_filter w sync_after
    destination_sync_methods charts_of_accounts "CATEGORY" false
    paginated_destination_attribute_values
  (rows.filter fun r => f (eaToCatRow r)).map fun r => (pyLower r.value, r.source_id)

/-- Embedding of `Base.get_existing_fyle_attributes`: build the source-side
filter (with the default-off auto-sync flag, which always sets the active
restriction), pop the active key, and probe the platform rows on the
annotated case-folded value. In Python the dict keeps the last entry per
duplicate key; the theorems below depend only on key membership. -/
def base_get_existing_fyle_attributes (w : Nat) (sync_after : Option ℚ)
    (platform_class_name source_field : String)
    (rows : List ExpenseAttribute)
    (paginated_destination_attribute_values : List String) :
    List (String × String) :=
  let filters := construct_attributes_filter w sync_after platform_class_name
    (.single source_field) false paginated_destination_attribute_values false
  let popped := { filters with active := none }
  (rows.filter fun r => eaMatches popped r).map fun r => (pyLower r.value, r.source_id)

/-- One payload item of `Category.construct_fyle_payload`. -/
structure CategoryPayloadEntry where
  name : String
  code : Option String
  is_enabled : Option Bool
  id : Option String
deriving DecidableEq, Repr

/-- Embedding of `Category.construct_fyle_payload`: create when the
case-folded name is absent from the existing map; when present, emit a
disable update (carrying the platform id) only if auto-sync is enabled and
the destination record is inactive; `Unspecified` is always forced
enabled. -/
def category_construct_fyle_payload
    (import_without_destination_id is_auto_sync_enabled : Bool) :
    List DestinationAttribute → List (String × String) → List CategoryPayloadEntry
  | [], _ => []
  | a :: rest, existing_fyle_attributes_map =>
    let category : CategoryPayloadEntry :=
      { name := a.value
        code := if !import_without_destination_id then a.destination_id else none
        is_enabled := if a.value ≠ "Unspecified" then a.active else some true
        id := none }
    let tail := category_construct_fyle_payload
      import_without_destination_id is_auto_sync_enabled rest
      existing_fyle_attributes_map
    if (existing_fyle_attributes_map.lookup (pyLower a.value)).isNone then
      category :: tail
    else if is_auto_sync_enabled ∧ ¬ pyTruthy a.active then
      { category with id := existing_fyle_attributes_map.lookup (pyLower a.value) } :: tail
    else tail

theorem eaMatches_active_irrelevant (f : AttributesFilter) (hf : f.active = none)
    (r : ExpenseAttribute) (b : Bool) :
    eaMatches f { r with active := b } = eaMatches f r := by
  simp [eaMatches, hf]

theorem lookup_isSome_of_key_mem :
    ∀ (l : List (String × String)) (k : String),
      k ∈ l.map Prod.fst → (l.lookup k).isSome = true := by
  intro l
  induction l with
  | nil => intro k hk; cases hk
  | cons p rest ih =>
    intro k hk
    rcases List.mem_cons.mp hk with hk | hk
    · simp [List.lookup, hk]
    · by_cases hkp : k == p.1
      · simp [List.lookup, hkp]
      · simp only [List.lookup, hkp]
        exact ih k hk

theorem tax_payload_entries_src :
    ∀ (attrs : List DestinationAttribute) (m : List (String × String))
      (es : List TaxGroupPayloadEntry),
      tax_groups_construct_fyle_payload attrs m = some es →
      ∀ e ∈ es, ∃ a ∈ attrs, e.name = a.value ∧
        (m.lookup (pyLower a.value)).isSome = false := by
  intro attrs
  induction attrs with
  | nil =>
    intro m es hes e he
    simp only [tax_groups_construct_fyle_payload, Option.some_inj] at hes
    subst hes
    cases he
  | cons a rest ih =>
    intro m es hes e he
    rw [tax_groups_construct_fyle_payload] at hes
    cases hentry : taxGroupEntry a with
    | none => rw [hentry] at hes; cases hes
    | some ea =>
      rw [hentry] at hes
      cases htail : tax_groups_construct_fyle_payload rest m with
      | none => rw [htail] at hes; cases hes
      | some ts =>
        rw [htail] at hes
        dsimp only at hes
        by_cases hlk : (m.lookup (pyLower a.value)).isSome = true
        · rw [if_pos hlk] at hes
          rw [Option.some_inj] at hes
          subst hes
          obtain ⟨a', ha', he1, he2⟩ := ih m ts htail e he
          exact ⟨a', List.mem_cons_of_mem _ ha', he1, he2⟩
        · rw [if_neg hlk] at hes
          rw [Option.some_inj] at hes
          subst hes
          rcases List.mem_cons.mp he with rfl | he
          · refine ⟨a, List.mem_cons_self _ _, ?_, ?_⟩
            · rw [taxGroupEntry] at hentry
              cases hrate : a.detail_tax_rate with
              | none => rw [hrate] at hentry; simp at hentry
              | some rate =>
                rw [hrate] at hentry
                have hea := Option.some_inj.mp hentry
                rw [← hea]
            · cases h : (m.lookup (pyLower a.value)).isSome
              · rfl
              · exact absurd h hlk
          · obtain ⟨a', ha', he1, he2⟩ := ih m ts htail e he
            exact ⟨a', List.mem_cons_of_mem _ ha', he1, he2⟩

theorem base_lookup_key_mem (w : Nat) (sa : Option ℚ) (p s : String)
    (rows : List ExpenseAttribute) (vals : List String) (r : ExpenseAttribute)
    (hr : r ∈ rows) (hw : r.workspace_id = w) (ht : r.attribute_type = s)
    (hp : p ∉ ["expense_custom_fields", "merchants"])
    (hv : vals = [] ∨ pyLower r.value ∈ vals.map pyLower) :
    pyLower r.value ∈
      (base_get_existing_fyle_attributes w sa p s rows vals).map Prod.fst := by
  have hupdated : ¬ (sa ≠ none ∧
      p ∉ ["expense_custom_fields", "merchants"] ∧ (false : Bool) = true) := by
    rintro ⟨-, -, h⟩
    simp at h
  have hmatch : eaMatches
      { construct_attributes_filter w sa p (.single s) false vals false with
          active := none } r = true := by
    rcases hv with hv | hv
    · subst hv
      simp [eaMatches, construct_attributes_filter, hupdated, hw, ht]
    · by_cases hve : vals = []
      · subst hve
        simp [eaMatches, construct_attributes_filter, hupdated, hw, ht]
      · have hvals : (¬ p = "expense_custom_fields" ∧ ¬ p = "merchants") ∧
            ¬ vals = [] := by
          simp only [List.mem_cons, List.mem_singleton, not_or] at hp
          exact ⟨⟨hp.1, hp.2.1⟩, hve⟩
        simp [eaMatches, construct_attributes_filter, hupdated, hvals, hw, ht, hv]
  have hinner : (pyLower r.value, r.source_id) ∈
      (rows.filter fun x => eaMatches
        { construct_attributes_filter w sa p (.single s) false vals false with
            active := none } x).map
        fun x => (pyLower x.value, x.source_id) :=
    List.mem_map.mpr ⟨r, List.mem_filter.mpr ⟨hr, hmatch⟩, rfl⟩
  exact List.mem_map.mpr ⟨(pyLower r.value, r.source_id), hinner, rfl⟩

theorem category_lookup_key_mem (w : Nat) (sa : Option ℚ)
    (dsm ch : List String) (rows : List ExpenseAttribute) (vals : List String)
    (r : ExpenseAttribute) (hr : r ∈ rows) (hw : r.workspace_id = w)
    (ht : r.attribute_type = "CATEGORY")
    (hv : vals = [] ∨ r.value ∈ vals) :
    pyLower r.value ∈
      (category_get_existing_fyle_attributes w sa dsm ch rows vals).map Prod.fst := by
  have hmatch : category_construct_attributes_filter w sa dsm ch "CATEGORY"
      false vals (eaToCatRow r) = true := by
    rcases hv with hv | hv
    · subst hv
      simp [category_construct_attributes_filter, eaToCatRow, hw, ht]
    · by_cases hve : vals = []
      · subst hve
        simp [category_construct_attributes_filter, eaToCatRow, hw, ht]
      · simp [category_construct_attributes_filter, eaToCatRow, hve, hw, ht, hv]
  have hinner : (pyLower r.value, r.source_id) ∈
      (rows.filter fun x => category_construct_attributes_filter w sa dsm ch
        "CATEGORY" false vals (eaToCatRow x)).map
        fun x => (pyLower x.value, x.source_id) :=
    List.mem_map.mpr ⟨r, List.mem_filter.mpr ⟨hr, hmatch⟩, rfl⟩
  exact List.mem_map.mpr ⟨(pyLower r.value, r.source_id), hinner, rfl⟩

theorem base_lookup_active_irrelevant (w : Nat) (sa : Option ℚ) (p s : String)
    (vals : List String) (b : Bool) (rows : List ExpenseAttribute) :
    base_get_existing_fyle_attributes w sa p s
        (rows.map fun r => { r with active := b }) vals =
      base_get_existing_fyle_attributes w sa p s rows vals := by
  show ((rows.map fun r => { r with active := b }).filter fun x => eaMatches
      { construct_attributes_filter w sa p (.single s) false vals false with
          active := none } x).map (fun x => (pyLower x.value, x.source_id)) =
    (rows.filter fun x => eaMatches
      { construct_attributes_filter w sa p (.single s) false vals false with
          active := none } x).map (fun x => (pyLower x.value, x.source_id))
  rw [List.filter_map, List.map_map]
  have hfil : ((fun x => eaMatches
      { construct_attributes_filter w sa p (.single s) false vals false with
          active := none } x) ∘ fun r => { r with active := b }) =
      fun x => eaMatches
        { construct_attributes_filter w sa p (.single s) false vals false with
            active := none } x := by
    funext x
    exact eaMatches_active_irrelevant _ rfl x b
  rw [hfil]
  have hmap : ((fun x : ExpenseAttribute => (pyLower x.value, x.source_id)) ∘
      fun r => { r with active := b }) =
      fun x : ExpenseAttribute => (pyLower x.value, x.source_id) := by
    funext x
    rfl
  rw [hmap]

theorem category_lookup_active_irrelevant (w : Nat) (sa : Option ℚ)
    (dsm ch : List String) (vals : List String) (b : Bool)
    (rows : List ExpenseAttribute) :
    category_get_existing_fyle_attributes w sa dsm ch
        (rows.map fun r => { r with active := b }) vals =
      category_get_existing_fyle_attributes w sa dsm ch rows vals := by
  show ((rows.map fun r => { r with active := b }).filter fun x =>
      category_construct_attributes_filter w sa dsm ch "CATEGORY" false vals
        (eaToCatRow x)).map (fun x => (pyLower x.value, x.source_id)) =
    (rows.filter fun x =>
      category_construct_attributes_filter w sa dsm ch "CATEGORY" false vals
        (eaToCatRow x)).map (fun x => (pyLower x.value, x.source_id))
  rw [List.filter_map, List.map_map]
  have hfil : ((fun x => category_construct_attributes_filter w sa dsm ch
        "CATEGORY" false vals (eaToCatRow x)) ∘ fun r => { r with active := b }) =
      fun x => category_construct_attributes_filter w sa dsm ch "CATEGORY"
        false vals (eaToCatRow x) := by
    funext x
    show category_construct_attributes_filter w sa dsm ch "CATEGORY" false vals
        (eaToCatRow { x with active := b }) =
      category_construct_attributes_filter w sa dsm ch "CATEGORY" false vals
        (eaToCatRow x)
    by_cases hvals : vals = [] <;>
      simp [category_construct_attributes_filter, eaToCatRow, hvals]
  rw [hfil]
  have hmap : ((fun x : ExpenseAttribute => (pyLower x.value, x.source_id)) ∘
      fun r => { r with active := b }) =
      fun x : ExpenseAttribute => (pyLower x.value, x.source_id) := by
    funext x
    rfl
  rw [hmap]

/-- A disabled platform category row spelled in upper case. -/
def salesPlatformRow : ExpenseAttribute :=
  { workspace_id := 1, attribute_type := "CATEGORY", source_id := "c7",
    value := "SALES", active := false, updated_at := 0 }

/-- An active destination category differing from the platform row only in
case. -/
def salesDestAttr : DestinationAttribute :=
  { id := 9, value := "Sales", code := none, destination_id := some "d1",
    active := some true, detail_tax_rate := none, updated_at := 0 }

/-- C10 counterexample: the platform stores the category "SALES" (disabled)
whose case-folded value matches the destination value "Sales", yet the
Category existence lookup restricts on the exact value (`value__in`), finds
nothing, and the payload builder emits a create entry for "Sales" — so a
case-folded platform match does not always suppress the create. -/
theorem claim_C10_counterexample :
    pyLower salesPlatformRow.value = pyLower salesDestAttr.value ∧
    (category_construct_fyle_payload false true [salesDestAttr]
        (category_get_existing_fyle_attributes 1 none ["accounts"] []
          [salesPlatformRow] ["Sales"])).map (fun e => (e.name, e.id)) =
      [("Sales", none)] := by
  exact ⟨rfl, rfl⟩

/-- C10 (amended): both existence lookups ignore the active flag entirely —
flipping every row's active flag leaves the lookup unchanged (the base
lookup pops the `active` key; the Category source-side filter never adds
one). The base lookup keys are case-folded and matched case-insensitively,
so a destination attribute whose case-folded value matches any platform
record, active or disabled, never receives a create entry (shown for the
TaxGroup builder). The Category lookup, however, restricts candidates on
the exact value string, so only exact-value platform matches are found
(still regardless of the active flag). -/
theorem claim_C10_amended :
    (∀ (w : Nat) (sa : Option ℚ) (p s : String) (rows : List ExpenseAttribute)
        (vals : List String) (b : Bool),
      base_get_existing_fyle_attributes w sa p s
          (rows.map fun r => { r with active := b }) vals =
        base_get_existing_fyle_attributes w sa p s rows vals) ∧
    (∀ (w : Nat) (sa : Option ℚ) (dsm ch : List String)
        (rows : List ExpenseAttribute) (vals : List String) (b : Bool),
      category_get_existing_fyle_attributes w sa dsm ch
          (rows.map fun r => { r with active := b }) vals =
        category_get_existing_fyle_attributes w sa dsm ch rows vals) ∧
    (∀ (w : Nat) (sa : Option ℚ) (p s : String) (rows : List ExpenseAttribute)
        (vals : List String) (attrs : List DestinationAttribute)
        (es : List TaxGroupPayloadEntry) (a : DestinationAttribute),
      p ∉ ["expense_custom_fields", "merchants"] →
      tax_groups_construct_fyle_payload attrs
          (base_get_existing_fyle_attributes w sa p s rows vals) = some es →
      a ∈ attrs →
      (∃ r ∈ rows, r.workspace_id = w ∧ r.attribute_type = s ∧
        pyLower r.value = pyLower a.value) →
      (vals = [] ∨ pyLower a.value ∈ vals.map pyLower) →
      ∀ e ∈ es, e.name ≠ a.value) ∧
    (∀ (w : Nat) (sa : Option ℚ) (dsm ch : List String)
        (rows : List ExpenseAttribute) (vals : List String)
        (r : ExpenseAttribute),
      r ∈ rows → r.workspace_id = w → r.attribute_type = "CATEGORY" →
      (vals = [] ∨ r.value ∈ vals) →
      pyLower r.value ∈
        (category_get_existing_fyle_attributes w sa dsm ch rows vals).map
          Prod.fst) := by
  refine ⟨?_, ?_, ?_, ?_⟩
  · intro w sa p s rows vals b
    exact base_lookup_active_irrelevant w sa p s vals b rows
  · intro w sa dsm ch rows vals b
    exact category_lookup_active_irrelevant w sa dsm ch vals b rows
  · intro w sa p s rows vals attrs es a hp hes ha hrow hvmem e he
    obtain ⟨r, hr, hw, ht, hvv⟩ := hrow
    obtain ⟨a', ha', hname', hnone⟩ := tax_payload_entries_src attrs _ es hes e he
    intro heq
    have hv' : vals = [] ∨ pyLower r.value ∈ vals.map pyLower := by
      rcases hvmem with h | h
      · exact Or.inl h
      · exact Or.inr (by rw [hvv]; exact h)
    have hkey := base_lookup_key_mem w sa p s rows vals r hr hw ht hp hv'
    have hsome := lookup_isSome_of_key_mem _ _ hkey
    have haval : a'.value = a.value := by
      rw [← hname', heq]
    rw [hvv, ← haval] at hsome
    rw [hsome] at hnone
    cases hnone
  · intro w sa dsm ch rows vals r hr hw ht hv
    exact category_lookup_key_mem w sa dsm ch rows vals r hr hw ht hv

/-- C10 witness: the amended theorem applied concretely — flipping the
active flag of the stored row leaves the base lookup unchanged, and the
Category lookup finds the disabled "SALES" row when probed with its exact
value. -/
theorem claim_C10_amended_witness :
    base_get_existing_fyle_attributes 1 none "tax_groups" "TAX_GROUP"
        ([salesPlatformRow].map fun r => { r with active := true }) ["GST"] =
      base_get_existing_fyle_attributes 1 none "tax_groups" "TAX_GROUP"
        [salesPlatformRow] ["GST"] ∧
    pyLower salesPlatformRow.value ∈
      (category_get_existing_fyle_attributes 1 none ["accounts"] []
        [salesPlatformRow] ["SALES"]).map Prod.fst :=
  ⟨claim_C10_amended.1 1 none "tax_groups" "TAX_GROUP" [salesPlatformRow]
      ["GST"] true,
    claim_C10_amended.2.2.2 1 none ["accounts"] [] [salesPlatformRow] ["SALES"]
      salesPlatformRow (List.mem_singleton.mpr rfl) rfl rfl
      (Or.inr (List.mem_singleton.mpr rfl))⟩
